import Mathlib

/-!
Verification of the macromate event-timeline pipeline (src/storage.rs,
src/recorder.rs, src/player.rs) against its natural-language specification.

Rust strings are embedded as `List Char`; `u64` values as `Nat` (with an
explicit `< 2^64` bound where parsing enforces u64 range, and `% 2^64`
where arithmetic may wrap); `i32` values as `Int` with explicit range
checks mirroring `str::parse::<i32>`.  Fallible Rust functions returning
`Result<_, String>` are embedded as `Except (List Char) _`.
-/

instance {ε α : Type} [DecidableEq ε] [DecidableEq α] : DecidableEq (Except ε α) :=
  fun a b =>
    match a, b with
    | .error x, .error y => decidable_of_iff' (x = y) (by simp)
    | .error _, .ok _ => isFalse (by simp)
    | .ok _, .error _ => isFalse (by simp)
    | .ok x, .ok y => decidable_of_iff' (x = y) (by simp)

namespace Macromate

/-- Whitespace test used by `str::trim` / `split_whitespace`.  The inputs
handled by this codec are ASCII, so only the ASCII whitespace characters
are modelled. -/
def isWsChar (c : Char) : Bool :=
  c = ' ' || c = '\t' || c = '\n' || c = '\r'

/-- `str::trim`: remove leading and trailing whitespace. -/
def trimChars (s : List Char) : List Char :=
  ((s.dropWhile isWsChar).reverse.dropWhile isWsChar).reverse

/-- `str::strip_prefix`: drop `p` from the front of `s` if it is a prefix. -/
def stripPre (p s : List Char) : Option (List Char) :=
  if p.isPrefixOf s then some (s.drop p.length) else none

/-- `str::strip_suffix`: drop `p` from the end of `s` if it is a suffix. -/
def stripSuf (p s : List Char) : Option (List Char) :=
  if p.isSuffixOf s then some (s.take (s.length - p.length)) else none

/-- Split on every character satisfying `p` (empty pieces kept), as Rust's
`str::split` with a char-class pattern does. -/
def splitOnPred (p : Char → Bool) : List Char → List (List Char)
  | [] => [[]]
  | c :: cs =>
    match splitOnPred p cs with
    | [] => [[]]
    | h :: t => if p c then [] :: h :: t else (c :: h) :: t

/-- `str::split(c)` for a single-character pattern. -/
def splitOnChar (c : Char) (s : List Char) : List (List Char) :=
  splitOnPred (fun x => x = c) s

/-- `str::split_whitespace`: split on whitespace runs, dropping empty
pieces. -/
def splitWs (s : List Char) : List (List Char) :=
  (splitOnPred isWsChar s).filter (fun w => ¬ w.isEmpty)

/-- Fuel-driven worker for `splitOnList`; with `fuel ≥ s.length` and a
nonempty separator it computes Rust's `str::split(sep)` for a multi-char
separator (leftmost, non-overlapping occurrences). -/
def splitOnListAux (sep : List Char) : List Char → Nat → List (List Char)
  | s, 0 => [s]
  | s, fuel + 1 =>
    match s with
    | [] => [[]]
    | x :: xs =>
      if sep.isPrefixOf (x :: xs) then
        [] :: splitOnListAux sep ((x :: xs).drop sep.length) fuel
      else
        match splitOnListAux sep xs fuel with
        | [] => [[]]
        | h :: t => (x :: h) :: t

/-- `str::split(sep)` for a string pattern (the codec only uses it with
the nonempty separator `" for "`). -/
def splitOnList (sep s : List Char) : List (List Char) :=
  if sep.isEmpty then [s] else splitOnListAux sep s s.length

/-- Fuel-driven worker for `natDigits` (structural recursion so that the
kernel can evaluate it; any `fuel` with `n < 10 ^ fuel` gives the digits). -/
def natDigitsAux : Nat → Nat → List Char
  | 0, _ => []
  | fuel + 1, n =>
    if n < 10 then [Nat.digitChar n]
    else natDigitsAux fuel (n / 10) ++ [Nat.digitChar (n % 10)]

/-- Decimal digit characters of `n`, most significant first: the embedding
of `Display` for unsigned integers. -/
def natDigits (n : Nat) : List Char :=
  natDigitsAux (n + 1) n

/-- `Display` for `i32`/`Int`: optional minus sign followed by the decimal
digits of the absolute value. -/
def intToChars (i : Int) : List Char :=
  if i < 0 then '-' :: natDigits i.natAbs else natDigits i.natAbs

/-- Numeric value of a nonempty all-digit character list, `none` otherwise. -/
def charsToNat? (cs : List Char) : Option Nat :=
  if cs ≠ [] ∧ cs.all (fun c => c.isDigit) then
    some (cs.foldl (fun a c => a * 10 + (c.toNat - 48)) 0)
  else none

/-- `str::parse::<u64>`: optional leading `+`, decimal digits, value must
fit in 64 bits. -/
def parseU64 (cs : List Char) : Option Nat :=
  let body := if cs.head? = some '+' then cs.tail else cs
  match charsToNat? body with
  | some v => if v < 2 ^ 64 then some v else none
  | none => none

/-- `str::parse::<i32>`: optional sign, decimal digits, value must fit in
32 bits. -/
def parseI32 (cs : List Char) : Option Int :=
  if cs.head? = some '-' then
    match charsToNat? cs.tail with
    | some v => if v ≤ 2 ^ 31 then some (-(v : Int)) else none
    | none => none
  else
    let body := if cs.head? = some '+' then cs.tail else cs
    match charsToNat? body with
    | some v => if v < 2 ^ 31 then some (v : Int) else none
    | none => none

/-- `Vec::join(sep)`: concatenate the pieces with `sep` between each
adjacent pair. -/
def joinSep (sep : List Char) : List (List Char) → List Char
  | [] => []
  | [x] => x
  | x :: y :: rest => x ++ sep ++ joinSep sep (y :: rest)

/-- Byte-lexicographic `≤` on strings (Rust `Ord` for `str`, restricted to
the ASCII names this codec uses). -/
def strLe : List Char → List Char → Bool
  | [], _ => true
  | _ :: _, [] => false
  | a :: as, b :: bs => if a = b then strLe as bs else decide (a < b)

/-- Modelled from the spec: the Key Catalog (`crate::keymap`, not present
under `src/`), a "static bidirectional mapping between symbolic key names
(e.g. "W", "SHIFT") and numeric key codes.  Pure lookup table; no state."
A representative subset of entries is included: `W = 17` and `A = 30` are
fixed by the repository's own tests; the remaining entries use the
standard evdev codes for the spec's example names. -/
def keymapTable : List (List Char × Nat) :=
  [("W".toList, 17), ("A".toList, 30), ("S".toList, 31), ("D".toList, 32),
   ("SHIFT".toList, 42), ("SPACE".toList, 57), ("ENTER".toList, 28)]

/-- Modelled from the spec: `keymap::name_to_keycode`, the name → code
direction of the Key Catalog. -/
def name_to_keycode (n : List Char) : Option Nat :=
  (keymapTable.find? (fun e => e.1 == n)).map (fun e => e.2)

/-- Modelled from the spec: `keymap::keycode_to_name`, the code → name
direction of the Key Catalog. -/
def keycode_to_name (c : Nat) : Option (List Char) :=
  (keymapTable.find? (fun e => e.2 == c)).map (fun e => e.1)

/-- `state::MacroState` (declared in the missing `crate::state`, but its
fields are fixed by every construction site in `storage.rs`): a
duration-bearing description of one interval.  The Rust `HashSet<u16>` of
pressed keys is order-irrelevant, so it is embedded as a `Finset`. -/
structure MacroState where
  duration_ms : Nat
  keys_pressed : Finset Nat
  mouse_delta : Int × Int
  scroll_delta : Int × Int

theorem MacroState.ext_iff' (a b : MacroState) :
    a = b ↔ a.duration_ms = b.duration_ms ∧ a.keys_pressed = b.keys_pressed ∧
      a.mouse_delta = b.mouse_delta ∧ a.scroll_delta = b.scroll_delta := by
  cases a
  cases b
  simp [MacroState.mk.injEq]

instance : DecidableEq MacroState := fun a b =>
  decidable_of_iff' _ (MacroState.ext_iff' a b)

/-- `strLe` as a decidable relation, for use with `List.insertionSort`. -/
def strLeP (a b : List Char) : Prop := strLe a b = true

instance : DecidableRel strLeP := fun a b => instDecidableEqBool (strLe a b) true

/-- The elements of a `Finset Nat` in ascending order (a kernel-reducible
replacement for `Finset.sort`, whose merge sort is defined by well-founded
recursion). -/
def finsetAsc (s : Finset Nat) : List Nat :=
  Quot.liftOn s.val (fun l => l.insertionSort (· ≤ ·)) fun _ _ h =>
    List.eq_of_perm_of_sorted
      (((List.perm_insertionSort _ _).trans h).trans (List.perm_insertionSort _ _).symm)
      (List.sorted_insertionSort _ _) (List.sorted_insertionSort _ _)

/-- The key names emitted for a key set: each keycode is mapped through
the catalog (codes without a name are silently dropped, as `filter_map`
does) and the names are sorted.  The Rust `HashSet` iteration order is
arbitrary, but the subsequent `sort()` makes the result independent of
it, so the embedding enumerates the set in keycode order. -/
def sortedKeyNames (keys : Finset Nat) : List (List Char) :=
  ((finsetAsc keys).filterMap keycode_to_name).insertionSort strLeP

/-- The `wait <N>ms` instruction text. -/
def waitLine (d : Nat) : List Char :=
  "wait ".toList ++ natDigits d ++ "ms".toList

/-- Step 1 of the serialization rule: the `hold`/`tap` instruction pushed
for a nonempty key set (`format!("hold {} for {}ms", ..)` / `format!("tap {}", ..)`). -/
def holdTapInstr (st : MacroState) : List (List Char) :=
  if st.keys_pressed = ∅ then []
  else
    let keys := sortedKeyNames st.keys_pressed
    if 0 < st.duration_ms then
      ["hold ".toList ++ joinSep "+".toList keys ++ " for ".toList ++
        natDigits st.duration_ms ++ "ms".toList]
    else
      ["tap ".toList ++ joinSep "+".toList keys]

/-- Step 2 of the serialization rule: the `move <dx> <dy>` instruction
pushed for a nonzero mouse delta. -/
def moveInstr (st : MacroState) : List (List Char) :=
  if st.mouse_delta = (0, 0) then []
  else ["move ".toList ++ intToChars st.mouse_delta.1 ++ " ".toList ++
          intToChars st.mouse_delta.2]

/-- Step 3 of the serialization rule: the vertical `scroll up/down <N>`
instruction pushed for a nonzero vertical scroll delta. -/
def scrollVInstr (st : MacroState) : List (List Char) :=
  if st.scroll_delta.1 = 0 then []
  else if 0 < st.scroll_delta.1 then
    ["scroll up ".toList ++ natDigits st.scroll_delta.1.natAbs]
  else
    ["scroll down ".toList ++ natDigits st.scroll_delta.1.natAbs]

/-- Step 4 of the serialization rule: the horizontal `scroll right/left <N>`
instruction pushed for a nonzero horizontal scroll delta. -/
def scrollHInstr (st : MacroState) : List (List Char) :=
  if st.scroll_delta.2 = 0 then []
  else if 0 < st.scroll_delta.2 then
    ["scroll right ".toList ++ natDigits st.scroll_delta.2.natAbs]
  else
    ["scroll left ".toList ++ natDigits st.scroll_delta.2.natAbs]

/-- `storage::format_state`: format one `MacroState` as a DSL line.  The
pushed instruction parts are joined with `" "` into a single string; only
the trailing `wait` of a duration-bearing mouse/scroll state is separated
by an embedded newline. -/
def format_state (st : MacroState) : List Char :=
  if st.keys_pressed = ∅ ∧ st.mouse_delta = (0, 0) ∧ st.scroll_delta = (0, 0) then
    if 0 < st.duration_ms then waitLine st.duration_ms
    else "# empty state".toList
  else
    let scrollParts : List (List Char) :=
      if st.scroll_delta = (0, 0) then [] else scrollVInstr st ++ scrollHInstr st
    let result := joinSep " ".toList (holdTapInstr st ++ moveInstr st ++ scrollParts)
    if result = [] then
      if 0 < st.duration_ms then waitLine st.duration_ms
      else "# empty state".toList
    else if 0 < st.duration_ms ∧ st.keys_pressed = ∅ then
      result ++ '\n' :: waitLine st.duration_ms
    else result

/-- `storage::parse_duration`: accept `<N>ms` or `<N>s` (the latter scaled
by 1000 with u64 wrap-around), anything else is an error. -/
def parse_duration (s : List Char) : Except (List Char) Nat :=
  match stripSuf "ms".toList s with
  | some msStr =>
    match parseU64 msStr with
    | some v => .ok v
    | none => .error ("Invalid duration: ".toList ++ s)
  | none =>
    match stripSuf "s".toList s with
    | some sStr =>
      match parseU64 sStr with
      | some v => .ok (v * 1000 % 2 ^ 64)
      | none => .error ("Invalid duration: ".toList ++ s)
    | none => .error ("Duration must end with 'ms' or 's': ".toList ++ s)

/-- Loop body of `storage::parse_keys`: look each (trimmed) name up in the
Key Catalog, stopping at the first unknown one. -/
def parse_keys_go : List (List Char) → Finset Nat → Except (List Char) (Finset Nat)
  | [], acc => .ok acc
  | n :: ns, acc =>
    match name_to_keycode (trimChars n) with
    | some c => parse_keys_go ns (insert c acc)
    | none => .error ("Unknown key: ".toList ++ trimChars n)

/-- `storage::parse_keys`: split a `W+A+SHIFT` list on `+` and look every
token up in the Key Catalog. -/
def parse_keys (s : List Char) : Except (List Char) (Finset Nat) :=
  parse_keys_go (splitOnChar '+' s) ∅

/-- `storage::parse_line`: parse one DSL line into a `MacroState`. -/
def parse_line (line0 : List Char) : Except (List Char) MacroState :=
  let line := trimChars line0
  match stripPre "hold ".toList line with
  | some rest =>
    match splitOnList " for ".toList rest with
    | [keysStr, durationStr] =>
      match parse_duration durationStr with
      | .error e => .error e
      | .ok d =>
        match parse_keys keysStr with
        | .error e => .error e
        | .ok ks => .ok ⟨d, ks, (0, 0), (0, 0)⟩
    | _ => .error ("Invalid 'hold' syntax: ".toList ++ line)
  | none =>
    match stripPre "wait ".toList line with
    | some rest =>
      match parse_duration rest with
      | .error e => .error e
      | .ok d => .ok ⟨d, ∅, (0, 0), (0, 0)⟩
    | none =>
      match stripPre "move ".toList line with
      | some rest =>
        match splitWs rest with
        | [xStr, yStr] =>
          match parseI32 xStr with
          | none => .error ("Invalid X coordinate: ".toList ++ xStr)
          | some x =>
            match parseI32 yStr with
            | none => .error ("Invalid Y coordinate: ".toList ++ yStr)
            | some y => .ok ⟨0, ∅, (x, y), (0, 0)⟩
        | _ => .error ("Invalid 'move' syntax: ".toList ++ line)
      | none =>
        match stripPre "scroll ".toList line with
        | some rest =>
          match splitWs rest with
          | [dir, amountStr] =>
            match parseI32 amountStr with
            | none => .error ("Invalid scroll amount: ".toList ++ amountStr)
            | some amount =>
              if dir = "up".toList then .ok ⟨0, ∅, (0, 0), (amount, 0)⟩
              else if dir = "down".toList then .ok ⟨0, ∅, (0, 0), (-amount, 0)⟩
              else if dir = "left".toList then .ok ⟨0, ∅, (0, 0), (0, -amount)⟩
              else if dir = "right".toList then .ok ⟨0, ∅, (0, 0), (0, amount)⟩
              else .error ("Invalid scroll direction '".toList ++ dir ++
                             "', use up/down/left/right".toList)
          | _ => .error ("Invalid 'scroll' syntax: ".toList ++ line)
        | none =>
          match stripPre "tap ".toList line with
          | some rest =>
            match parse_keys rest with
            | .error e => .error e
            | .ok ks => .ok ⟨0, ks, (0, 0), (0, 0)⟩
          | none => .error ("Unknown command: ".toList ++ line)

/-- The `"Line {n}: {e}"` message wrapped around a parse error by
`storage::load`. -/
def lineMsg (n : Nat) (e : List Char) : List Char :=
  "Line ".toList ++ natDigits n ++ ": ".toList ++ e

/-- The line loop of `storage::load`: trim each line, skip blanks and
`#` comments, parse everything else, aborting with a numbered message at
the first failure.  (The real `load` finally feeds the accumulated states
to `state::states_to_events`; the claims under verification are about the
state sequence, so the loop is embedded up to that point.) -/
def loadLines : List (List Char) → Nat → Except (List Char) (List MacroState)
  | [], _ => .ok []
  | l :: ls, n =>
    let t := trimChars l
    if t = [] then loadLines ls (n + 1)
    else if t.head? = some '#' then loadLines ls (n + 1)
    else
      match parse_line t with
      | .ok st => (loadLines ls (n + 1)).map (fun sts => st :: sts)
      | .error e => .error (lineMsg (n + 1) e)

/-- The three header lines written by `storage::save` before the states. -/
def headerLines : List (List Char) :=
  ["# EvKey Macro".toList, "# Layout: QWERTY".toList, []]

/-- The file lines one formatted state contributes: `writeln!` terminates
the string, and an embedded `'\n'` (mouse/scroll state with duration)
yields two lines when the file is read back line by line. -/
def formatLines (st : MacroState) : List (List Char) :=
  splitOnChar '\n' (format_state st)

/-- The serialization loop of `storage::save`, as the list of lines of the
produced file. -/
def saveLines (states : List MacroState) : List (List Char) :=
  headerLines ++ states.flatMap formatLines

/-- A hold/tap-shaped state, as the `hold`/`tap` branches of `parse_line`
produce it: a nonempty key set whose codes are all in the Key Catalog, no
mouse or scroll deltas, and a u64 duration (zero means `tap`). -/
def HoldTapShaped (s : MacroState) : Prop :=
  s.keys_pressed ≠ ∅ ∧ (∀ k ∈ s.keys_pressed, (keycode_to_name k).isSome = true) ∧
    s.duration_ms < 2 ^ 64 ∧ s.mouse_delta = (0, 0) ∧ s.scroll_delta = (0, 0)

/-- A wait-shaped state, as the `wait` branch of `parse_line` produces it
(with a positive duration, since an all-zero state is degenerate). -/
def WaitShaped (s : MacroState) : Prop :=
  0 < s.duration_ms ∧ s.duration_ms < 2 ^ 64 ∧ s.keys_pressed = ∅ ∧
    s.mouse_delta = (0, 0) ∧ s.scroll_delta = (0, 0)

/-- A move-shaped state, as the `move` branch of `parse_line` produces it:
zero duration, no keys, no scroll, a nonzero i32 mouse delta. -/
def MoveShaped (s : MacroState) : Prop :=
  s.duration_ms = 0 ∧ s.keys_pressed = ∅ ∧ s.scroll_delta = (0, 0) ∧
    s.mouse_delta ≠ (0, 0) ∧
    -(2 ^ 31) ≤ s.mouse_delta.1 ∧ s.mouse_delta.1 < 2 ^ 31 ∧
    -(2 ^ 31) ≤ s.mouse_delta.2 ∧ s.mouse_delta.2 < 2 ^ 31

/-- A scroll-shaped state, as the `scroll` branch of `parse_line` produces
it: zero duration, no keys, no mouse delta, and exactly one nonzero scroll
axis whose magnitude fits in an i32 (excluding `i32::MIN`, whose `abs`
does not). -/
def ScrollShaped (s : MacroState) : Prop :=
  s.duration_ms = 0 ∧ s.keys_pressed = ∅ ∧ s.mouse_delta = (0, 0) ∧
    ((s.scroll_delta.1 ≠ 0 ∧ s.scroll_delta.2 = 0 ∧
        -(2 ^ 31) < s.scroll_delta.1 ∧ s.scroll_delta.1 < 2 ^ 31) ∨
     (s.scroll_delta.1 = 0 ∧ s.scroll_delta.2 ≠ 0 ∧
        -(2 ^ 31) < s.scroll_delta.2 ∧ s.scroll_delta.2 < 2 ^ 31))

/-- A state of one of the four shapes the line parser itself produces
(each populating at most one activity track). -/
def ParserShaped (s : MacroState) : Prop :=
  HoldTapShaped s ∨ WaitShaped s ∨ MoveShaped s ∨ ScrollShaped s

/-- An evdev `InputEvent`, as destructured by `recorder.rs` (`EventSummary::Key`
carries a key code and a press value; everything else is opaque to the
toggle logic). -/
inductive InputEvent where
  | key (code : Nat) (value : Int)
  | relative (axis : Nat) (value : Int)
  | other
deriving DecidableEq

/-- `recorder::RecordedEvent`: an input event stamped with microseconds
since the recording started. -/
structure RecordedEvent where
  timestamp_us : Nat
  event : InputEvent
deriving DecidableEq

/-- The hard-wired toggle key `KeyCode::KEY_F1` (evdev code 59). -/
def KEY_F1 : Nat := 59

/-- The test guarding the toggle branch of `Recorder::poll`:
`key == KeyCode::KEY_F1 && value == 1` on a destructured key event. -/
def isTogglePress (ev : InputEvent) : Bool :=
  match ev with
  | .key code value => code = KEY_F1 && value = 1
  | _ => false

/-- `recorder::Recorder`: `recording` stands for `start_time.is_some()`;
`logs` records the `eprintln!` messages for per-device read failures;
`reads` counts wall-clock reads, so that a clock oracle can supply each
appended event's timestamp. -/
structure Recorder where
  recording : Bool
  events : List RecordedEvent
  logs : List (List Char)
  reads : Nat
deriving DecidableEq

/-- `Recorder::new` (no devices attached yet, not recording). -/
def Recorder.new : Recorder := ⟨false, [], [], 0⟩

/-- The per-event body of the loop in `Recorder::poll`: an F1 press toggles
recording (starting clears the log) and is consumed (`continue`); any other
event is appended, stamped with the current clock, if recording. -/
def processEvent (clock : Nat → Nat) (acc : Recorder × Bool) (ev : InputEvent) :
    Recorder × Bool :=
  if isTogglePress ev then
    if acc.1.recording = false then ({acc.1 with recording := true, events := []}, true)
    else ({acc.1 with recording := false}, true)
  else if acc.1.recording then
    ({acc.1 with events := acc.1.events ++ [⟨clock acc.1.reads, ev⟩], reads := acc.1.reads + 1}, acc.2)
  else acc

/-- The result of `device.fetch_events()` for one attached device: a batch
of events, `ErrorKind::WouldBlock`, or any other I/O error. -/
inductive FetchResult where
  | ok (evs : List InputEvent)
  | wouldBlock
  | err (msg : List Char)
deriving DecidableEq

/-- The per-device body of `Recorder::poll`: process a batch, skip a
would-block silently, log any other failure and continue. -/
def pollFetch (clock : Nat → Nat) (acc : Recorder × Bool) (f : FetchResult) :
    Recorder × Bool :=
  match f with
  | .ok evs => evs.foldl (processEvent clock) acc
  | .wouldBlock => acc
  | .err m => ({acc.1 with logs := acc.1.logs ++ [m]}, acc.2)

/-- The device loop of `Recorder::poll`, with `state_changed` initialized
to `false`. -/
def pollRun (clock : Nat → Nat) (st : Recorder) (fs : List FetchResult) :
    Recorder × Bool :=
  fs.foldl (pollFetch clock) (st, false)

/-- `Recorder::poll`: typed `io::Result<bool>`, but the body ends in
`Ok(state_changed)` and never constructs the error variant. -/
def poll (clock : Nat → Nat) (st : Recorder) (fs : List FetchResult) :
    Except (List Char) (Recorder × Bool) :=
  .ok (pollRun clock st fs)

/-- A sequence of `poll()` calls, each draining one list of per-device
fetch results. -/
def pollSeq (clock : Nat → Nat) (st : Recorder) : List (List FetchResult) → Recorder
  | [] => st
  | fs :: rest => pollSeq clock (pollRun clock st fs).1 rest

/-- One observable playback action of `Player::play`: a `thread::sleep` or
a `device.emit(&[event])` call. -/
inductive PlayAct where
  | sleep (us : Nat)
  | emit (ev : InputEvent)
deriving DecidableEq

/-- The event loop of `Player::play`: `emitRes i` is the device's response
to the `i`-th emit call (the virtual device is external).  Returns the
loop's result together with the trace of sleeps and emit attempts.
`r.timestamp_us - last` is `u64::saturating_sub` on `Nat`. -/
def playGo (emitRes : Nat → Except (List Char) Unit) :
    List RecordedEvent → Nat → Nat → Except (List Char) Unit × List PlayAct
  | [], _, _ => (.ok (), [])
  | r :: rest, i, last =>
    let delay := r.timestamp_us - last
    let pre : List PlayAct := if 0 < delay then [.sleep delay] else []
    match emitRes i with
    | .error m => (.error m, pre ++ [.emit r.event])
    | .ok _ =>
      let next := playGo emitRes rest (i + 1) r.timestamp_us
      (next.1, pre ++ .emit r.event :: next.2)

/-- `Player::play`: empty logs return `Ok` immediately; otherwise the loop
runs with `last_timestamp = 0`. -/
def play (emitRes : Nat → Except (List Char) Unit) (events : List RecordedEvent) :
    Except (List Char) Unit × List PlayAct :=
  if events.isEmpty then (.ok (), []) else playGo emitRes events 0 0

/-- The playback schedule as the specification words it: for each event in
order, a sleep for the difference between its timestamp and its
predecessor's (the first event measured against `last0`), skipped when the
difference is zero, followed by its emission. -/
def specTrace (last0 : Nat) (events : List RecordedEvent) : List PlayAct :=
  (events.zip (last0 :: events.map (fun e => e.timestamp_us))).flatMap fun p =>
    (if 0 < p.1.timestamp_us - p.2 then [PlayAct.sleep (p.1.timestamp_us - p.2)] else []) ++
      [PlayAct.emit p.1.event]

/-! ## Helper lemmas about the string model -/

theorem splitOnPred_ne_nil (p : Char → Bool) (s : List Char) : splitOnPred p s ≠ [] := by
  cases s with
  | nil => simp [splitOnPred]
  | cons c cs =>
    rw [splitOnPred]
    rcases h : splitOnPred p cs with _ | ⟨h1, t⟩
    · simp
    · by_cases hc : p c <;> simp [hc]

theorem splitOnPred_cons (p : Char → Bool) (c : Char) (cs : List Char) :
    splitOnPred p (c :: cs) =
      match splitOnPred p cs with
      | [] => [[]]
      | h :: t => if p c then [] :: h :: t else (c :: h) :: t := rfl

theorem splitOnPred_of_all (p : Char → Bool) (s : List Char)
    (h : ∀ c ∈ s, p c = false) : splitOnPred p s = [s] := by
  induction s with
  | nil => rfl
  | cons c cs ih =>
    rw [splitOnPred_cons, ih (fun x hx => h x (List.mem_cons_of_mem c hx))]
    simp [h c (List.mem_cons_self c cs)]

theorem splitOnPred_append (p : Char → Bool) (A : List Char) (c : Char) (B : List Char)
    (hA : ∀ x ∈ A, p x = false) (hc : p c = true) :
    splitOnPred p (A ++ c :: B) = A :: splitOnPred p B := by
  induction A with
  | nil =>
    rcases hB : splitOnPred p B with _ | ⟨h1, t⟩
    · exact absurd hB (splitOnPred_ne_nil p B)
    · rw [List.nil_append, splitOnPred_cons, hB]
      simp [hc]
  | cons a A' ih =>
    have ih' := ih (fun x hx => hA x (List.mem_cons_of_mem a hx))
    rw [List.cons_append, splitOnPred_cons, ih']
    simp [hA a (List.mem_cons_self a A')]

theorem joinSep_cons_cons (sep x y : List Char) (rest : List (List Char)) :
    joinSep sep (x :: y :: rest) = x ++ sep ++ joinSep sep (y :: rest) := rfl

theorem splitOnChar_joinSep (c : Char) (ns : List (List Char)) (h1 : ns ≠ [])
    (h2 : ∀ n ∈ ns, ∀ x ∈ n, x ≠ c) :
    splitOnChar c (joinSep [c] ns) = ns := by
  induction ns with
  | nil => exact absurd rfl h1
  | cons n rest ih =>
    cases rest with
    | nil =>
      show splitOnPred _ n = [n]
      exact splitOnPred_of_all _ n fun x hx => by
        simp [h2 n (List.mem_cons_self n []) x hx]
    | cons n' rest' =>
      rw [joinSep_cons_cons]
      show splitOnPred _ (n ++ [c] ++ joinSep [c] (n' :: rest')) = _
      rw [List.append_assoc, List.singleton_append]
      rw [splitOnPred_append _ n c _
        (fun x hx => by simp [h2 n (List.mem_cons_self n _) x hx]) (by simp)]
      have := ih (by simp) (fun m hm x hx => h2 m (List.mem_cons_of_mem n hm) x hx)
      rw [show splitOnPred (fun x => decide (x = c)) (joinSep [c] (n' :: rest'))
          = splitOnChar c (joinSep [c] (n' :: rest')) from rfl, this]

theorem dropWhile_eq_self_of_head (p : Char → Bool) (s : List Char)
    (h : ∀ c, s.head? = some c → p c = false) : s.dropWhile p = s := by
  cases s with
  | nil => rfl
  | cons c cs => rw [List.dropWhile_cons, if_neg (by simp [h c rfl])]

theorem trimChars_eq_self (s : List Char)
    (h1 : ∀ c, s.head? = some c → isWsChar c = false)
    (h2 : ∀ c, s.getLast? = some c → isWsChar c = false) : trimChars s = s := by
  rw [trimChars, dropWhile_eq_self_of_head _ _ h1,
    dropWhile_eq_self_of_head _ _ (fun c hc => h2 c (by rwa [← List.head?_reverse])),
    List.reverse_reverse]

theorem trimChars_of_all (s : List Char) (h : ∀ c ∈ s, isWsChar c = false) :
    trimChars s = s :=
  trimChars_eq_self s
    (fun c hc => h c (by cases s <;> simp_all))
    (fun c hc => h c (List.mem_of_getLast?_eq_some hc))

theorem stripPre_append (p r : List Char) : stripPre p (p ++ r) = some r := by
  rw [stripPre, if_pos (by simp), List.drop_left]

theorem stripPre_of_head_ne (p s : List Char) (c d : Char) (hp : p.head? = some c)
    (hs : s.head? = some d) (hne : c ≠ d) : stripPre p s = none := by
  cases p with
  | nil => simp at hp
  | cons a as =>
    cases s with
    | nil => simp at hs
    | cons b bs =>
      simp only [List.head?_cons, Option.some.injEq] at hp hs
      subst hp hs
      rw [stripPre, if_neg]
      show ¬(a == b && as.isPrefixOf bs) = true
      simp [hne]

theorem stripSuf_append (p r : List Char) : stripSuf p (r ++ p) = some r := by
  rw [stripSuf, if_pos (by simp)]
  congr 1
  rw [List.length_append, Nat.add_sub_cancel, List.take_left]

theorem stripSuf_of_not_suffix (p s : List Char) (h : ¬ p <:+ s) :
    stripSuf p s = none := by
  rw [stripSuf, if_neg (by simpa using h)]

/-! ## Digit and number round-trip lemmas -/

theorem digitChar_isDigit (m : Nat) (h : m < 10) : (Nat.digitChar m).isDigit = true := by
  interval_cases m <;> decide

theorem digitChar_toNat (m : Nat) (h : m < 10) : (Nat.digitChar m).toNat = 48 + m := by
  interval_cases m <;> decide

theorem natDigitsAux_spec : ∀ fuel n, n < 10 ^ (fuel + 1) →
    natDigitsAux (fuel + 1) n ≠ [] ∧
    (∀ c ∈ natDigitsAux (fuel + 1) n, c.isDigit = true) ∧
    ∀ acc, (natDigitsAux (fuel + 1) n).foldl (fun a c => a * 10 + (c.toNat - 48)) acc
      = acc * 10 ^ (natDigitsAux (fuel + 1) n).length + n := by
  intro fuel
  induction fuel with
  | zero =>
    intro n hn
    have h10 : n < 10 := by simpa using hn
    rw [natDigitsAux, if_pos h10]
    refine ⟨by simp, by simp [digitChar_isDigit n h10], fun acc => ?_⟩
    simp [List.foldl, digitChar_toNat n h10]
  | succ f ih =>
    intro n hn
    by_cases h10 : n < 10
    · rw [natDigitsAux, if_pos h10]
      refine ⟨by simp, by simp [digitChar_isDigit n h10], fun acc => ?_⟩
      simp [List.foldl, digitChar_toNat n h10]
    · rw [natDigitsAux, if_neg h10]
      have hdiv : n / 10 < 10 ^ (f + 1) := by
        rw [Nat.div_lt_iff_lt_mul (by omega)]
        calc n < 10 ^ (f + 1 + 1) := hn
        _ = 10 ^ (f + 1) * 10 := by ring
      obtain ⟨hne, hdig, hfold⟩ := ih (n / 10) hdiv
      have hm : n % 10 < 10 := Nat.mod_lt n (by omega)
      refine ⟨by simp, ?_, fun acc => ?_⟩
      · intro c hc
        rcases List.mem_append.mp hc with h | h
        · exact hdig c h
        · simp only [List.mem_singleton] at h
          subst h
          exact digitChar_isDigit _ hm
      · rw [List.foldl_append, hfold acc, List.length_append]
        simp only [List.foldl, List.length_singleton]
        rw [digitChar_toNat _ hm]
        have : acc * 10 ^ ((natDigitsAux (f + 1) (n / 10)).length + 1)
            = acc * 10 ^ (natDigitsAux (f + 1) (n / 10)).length * 10 := by ring
        rw [this]
        omega

theorem natDigits_bound (n : Nat) : n < 10 ^ (n + 1) := by
  calc n < 2 ^ n := Nat.lt_two_pow n
  _ ≤ 10 ^ n := Nat.pow_le_pow_left (by omega) n
  _ ≤ 10 ^ (n + 1) := Nat.pow_le_pow_right (by omega) (by omega)

theorem natDigits_ne_nil (n : Nat) : natDigits n ≠ [] :=
  (natDigitsAux_spec n n (natDigits_bound n)).1

theorem natDigits_all_digit (n : Nat) : ∀ c ∈ natDigits n, c.isDigit = true :=
  (natDigitsAux_spec n n (natDigits_bound n)).2.1

theorem charsToNat?_natDigits (n : Nat) : charsToNat? (natDigits n) = some n := by
  rw [charsToNat?, if_pos ⟨natDigits_ne_nil n, List.all_eq_true.mpr
    (fun c hc => natDigits_all_digit n c hc)⟩]
  have := (natDigitsAux_spec n n (natDigits_bound n)).2.2 0
  rw [show natDigitsAux (n + 1) n = natDigits n from rfl] at this
  rw [this]
  simp

theorem ne_plus_of_isDigit (c : Char) (h : c.isDigit = true) : c ≠ '+' :=
  fun he => absurd (he ▸ h) (by decide)

theorem ne_minus_of_isDigit (c : Char) (h : c.isDigit = true) : c ≠ '-' :=
  fun he => absurd (he ▸ h) (by decide)

theorem ne_nl_of_isDigit (c : Char) (h : c.isDigit = true) : c ≠ '\n' :=
  fun he => absurd (he ▸ h) (by decide)

theorem ws_false_of_isDigit (c : Char) (h : c.isDigit = true) : isWsChar c = false := by
  have h1 : c ≠ ' ' := fun he => absurd (he ▸ h) (by decide)
  have h2 : c ≠ '\t' := fun he => absurd (he ▸ h) (by decide)
  have h3 : c ≠ '\n' := fun he => absurd (he ▸ h) (by decide)
  have h4 : c ≠ '\r' := fun he => absurd (he ▸ h) (by decide)
  simp [isWsChar, h1, h2, h3, h4]

theorem natDigits_head_not (n : Nat) (c : Char) (hc : c.isDigit = false) :
    (natDigits n).head? ≠ some c := by
  rcases hnd : natDigits n with _ | ⟨d, ds⟩
  · simp
  · have hd : d.isDigit = true :=
      natDigits_all_digit n d (by rw [hnd]; exact List.mem_cons_self d ds)
    simp only [List.head?_cons, ne_eq, Option.some.injEq]
    intro he
    rw [he] at hd
    rw [hd] at hc
    exact absurd hc (by simp)

theorem parseU64_natDigits (n : Nat) (h : n < 2 ^ 64) :
    parseU64 (natDigits n) = some n := by
  rw [parseU64]
  simp only [if_neg (natDigits_head_not n '+' (by decide))]
  rw [charsToNat?_natDigits n]
  show (if n < 2 ^ 64 then some n else none) = some n
  rw [if_pos h]

theorem parseI32_intToChars (i : Int) (h1 : -(2 ^ 31) ≤ i) (h2 : i < 2 ^ 31) :
    parseI32 (intToChars i) = some i := by
  by_cases hneg : i < 0
  · have habs : (i.natAbs : Int) = -i := Int.ofNat_natAbs_of_nonpos (le_of_lt hneg)
    rw [intToChars, if_pos hneg, parseI32]
    simp only [List.head?_cons, if_pos rfl, List.tail_cons]
    rw [charsToNat?_natDigits]
    show (if i.natAbs ≤ 2 ^ 31 then some (-(i.natAbs : Int)) else none) = some i
    rw [if_pos (by omega)]
    rw [habs]
    simp
  · have hge : 0 ≤ i := le_of_not_lt hneg
    have habs : (i.natAbs : Int) = i := Int.natAbs_of_nonneg hge
    rw [intToChars, if_neg hneg, parseI32]
    simp only [if_neg (natDigits_head_not i.natAbs '-' (by decide)),
      if_neg (natDigits_head_not i.natAbs '+' (by decide))]
    rw [charsToNat?_natDigits]
    show (if i.natAbs < 2 ^ 31 then some ((i.natAbs : Int)) else none) = some i
    rw [if_pos (by omega), habs]

/-! ## Key Catalog lemmas (concrete table facts by `decide`) -/

theorem keymap_entry_name_ok : ∀ e ∈ keymapTable, e.1 ≠ [] ∧
    ∀ x ∈ e.1, x ≠ '+' ∧ x ≠ '\n' ∧ isWsChar x = false := by decide

theorem keymap_entry_lookup : ∀ e ∈ keymapTable, name_to_keycode e.1 = some e.2 := by
  decide

theorem keycode_to_name_mem (c : Nat) (nm : List Char)
    (h : keycode_to_name c = some nm) : (nm, c) ∈ keymapTable := by
  rw [keycode_to_name] at h
  rcases hf : keymapTable.find? (fun e => e.2 == c) with _ | e
  · rw [hf] at h
    simp at h
  · rw [hf] at h
    simp at h
    have hmem := List.mem_of_find?_eq_some hf
    have hpred := List.find?_some hf
    simp only [beq_iff_eq] at hpred
    have : e = (nm, c) := by
      rcases e with ⟨a, b⟩
      simp only at h hpred
      rw [h, hpred]
    rwa [this] at hmem

theorem name_to_keycode_of_keycode_to_name (c : Nat) (nm : List Char)
    (h : keycode_to_name c = some nm) : name_to_keycode nm = some c :=
  keymap_entry_lookup (nm, c) (keycode_to_name_mem c nm h)

theorem catalog_name_ok (c : Nat) (nm : List Char) (h : keycode_to_name c = some nm) :
    nm ≠ [] ∧ ∀ x ∈ nm, x ≠ '+' ∧ x ≠ '\n' ∧ isWsChar x = false :=
  keymap_entry_name_ok (nm, c) (keycode_to_name_mem c nm h)

theorem catalog_name_trim (c : Nat) (nm : List Char) (h : keycode_to_name c = some nm) :
    trimChars nm = nm :=
  trimChars_of_all nm fun x hx => ((catalog_name_ok c nm h).2 x hx).2.2

/-! ## `splitOnList` lemmas -/

theorem splitOnListAux_no_occ (c0 : Char) (sep' : List Char) :
    ∀ s, (∀ x ∈ s, x ≠ c0) → ∀ fuel, splitOnListAux (c0 :: sep') s fuel = [s] := by
  intro s
  induction s with
  | nil =>
    intro _ fuel
    cases fuel <;> rfl
  | cons x xs ih =>
    intro hs fuel
    cases fuel with
    | zero => rfl
    | succ f =>
      have hx : c0 ≠ x := Ne.symm (hs x (List.mem_cons_self x xs))
      rw [splitOnListAux, if_neg (by rw [List.isPrefixOf_cons₂]; simp [hx]),
        ih (fun y hy => hs y (List.mem_cons_of_mem x hy)) f]

theorem splitOnListAux_split (c0 : Char) (sep' : List Char) :
    ∀ (A : List Char) (fuel : Nat) (B : List Char), (∀ x ∈ A, x ≠ c0) → (∀ x ∈ B, x ≠ c0) →
      (A ++ (c0 :: sep') ++ B).length ≤ fuel →
      splitOnListAux (c0 :: sep') (A ++ (c0 :: sep') ++ B) fuel = [A, B] := by
  intro A
  induction A with
  | nil =>
    intro fuel B _ hB hlen
    cases fuel with
    | zero => simp at hlen
    | succ f =>
      rw [List.nil_append, show (c0 :: sep') ++ B = c0 :: (sep' ++ B) from rfl,
        splitOnListAux,
        if_pos (by
          rw [show c0 :: (sep' ++ B) = (c0 :: sep') ++ B from rfl]
          simp [List.isPrefixOf_iff_prefix]),
        show (c0 :: (sep' ++ B)).drop (c0 :: sep').length = B by
          rw [show c0 :: (sep' ++ B) = (c0 :: sep') ++ B from rfl]
          exact List.drop_left _ _,
        splitOnListAux_no_occ c0 sep' B hB f]
  | cons a A' ih =>
    intro fuel B hA hB hlen
    cases fuel with
    | zero => simp at hlen
    | succ f =>
      have ha : c0 ≠ a := Ne.symm (hA a (List.mem_cons_self a A'))
      rw [List.cons_append, List.cons_append, splitOnListAux,
        if_neg (by rw [List.isPrefixOf_cons₂]; simp [ha]),
        ih f B (fun y hy => hA y (List.mem_cons_of_mem a hy)) hB
          (by simp only [List.length_append, List.length_cons] at hlen ⊢; omega)]

theorem splitOnList_split (c0 : Char) (sep' : List Char) (A B : List Char)
    (hA : ∀ x ∈ A, x ≠ c0) (hB : ∀ x ∈ B, x ≠ c0) :
    splitOnList (c0 :: sep') (A ++ (c0 :: sep') ++ B) = [A, B] := by
  rw [splitOnList, if_neg (by simp)]
  exact splitOnListAux_split c0 sep' A _ B hA hB (le_refl _)

/-! ## `parse_keys` and key-set round-trip lemmas -/

theorem parse_keys_go_all_some (ns : List (List Char)) (acc : Finset Nat)
    (h : ∀ n ∈ ns, (name_to_keycode (trimChars n)).isSome = true) :
    parse_keys_go ns acc =
      .ok (acc ∪ (ns.filterMap (fun n => name_to_keycode (trimChars n))).toFinset) := by
  induction ns generalizing acc with
  | nil => simp [parse_keys_go]
  | cons n ns' ih =>
    obtain ⟨c, hc⟩ := Option.isSome_iff_exists.mp (h n (List.mem_cons_self n ns'))
    simp only [parse_keys_go, hc]
    rw [ih (insert c acc) (fun m hm => h m (List.mem_cons_of_mem n hm))]
    congr 1
    rw [@List.filterMap_cons_some (List Char) Nat
      (fun m => name_to_keycode (trimChars m)) n ns' c hc,
      List.toFinset_cons]
    ext x
    simp only [Finset.mem_union, Finset.mem_insert, List.mem_toFinset]
    tauto

theorem finsetAsc_val (s : Finset Nat) :
    ((finsetAsc s : List Nat) : Multiset Nat) = s.val := by
  rcases s with ⟨m, hm⟩
  revert hm
  refine Quot.inductionOn m ?_
  intro l hm
  show ((l.insertionSort (· ≤ ·) : List Nat) : Multiset Nat) = _
  exact Multiset.coe_eq_coe.mpr (List.perm_insertionSort _ l)

theorem mem_finsetAsc (s : Finset Nat) (x : Nat) : x ∈ finsetAsc s ↔ x ∈ s := by
  rw [← Multiset.mem_coe, finsetAsc_val]
  rfl

theorem finsetAsc_toFinset (s : Finset Nat) : (finsetAsc s).toFinset = s := by
  ext x
  rw [List.mem_toFinset, mem_finsetAsc]

theorem codes_of_names (l : List Nat) (h : ∀ c ∈ l, (keycode_to_name c).isSome = true) :
    (l.filterMap keycode_to_name).filterMap (fun n => name_to_keycode (trimChars n)) = l := by
  induction l with
  | nil => rfl
  | cons c l' ih =>
    obtain ⟨nm, hnm⟩ := Option.isSome_iff_exists.mp (h c (List.mem_cons_self c l'))
    rw [List.filterMap_cons_some hnm,
      @List.filterMap_cons_some (List Char) Nat
        (fun m => name_to_keycode (trimChars m)) nm (List.filterMap keycode_to_name l') c
        (by show name_to_keycode (trimChars nm) = some c
            rw [catalog_name_trim c nm hnm]
            exact name_to_keycode_of_keycode_to_name c nm hnm),
      ih (fun x hx => h x (List.mem_cons_of_mem c hx))]

theorem sortedKeyNames_mem (keys : Finset Nat) (n : List Char)
    (hn : n ∈ sortedKeyNames keys) : ∃ c ∈ keys, keycode_to_name c = some n := by
  have hperm : List.Perm (sortedKeyNames keys) ((finsetAsc keys).filterMap keycode_to_name) :=
    List.perm_insertionSort _ _
  have := hperm.mem_iff.mp hn
  obtain ⟨c, hc1, hc2⟩ := List.mem_filterMap.mp this
  exact ⟨c, (mem_finsetAsc keys c).mp hc1, hc2⟩

theorem sortedKeyNames_ne_nil (keys : Finset Nat) (hne : keys ≠ ∅)
    (hcat : ∀ k ∈ keys, (keycode_to_name k).isSome = true) :
    sortedKeyNames keys ≠ [] := by
  obtain ⟨k, hk⟩ := Finset.nonempty_iff_ne_empty.mpr hne
  obtain ⟨nm, hnm⟩ := Option.isSome_iff_exists.mp (hcat k hk)
  have hmem : nm ∈ (finsetAsc keys).filterMap keycode_to_name :=
    List.mem_filterMap.mpr ⟨k, (mem_finsetAsc keys k).mpr hk, hnm⟩
  have hperm : List.Perm (sortedKeyNames keys) ((finsetAsc keys).filterMap keycode_to_name) :=
    List.perm_insertionSort _ _
  intro hempty
  rw [hempty] at hperm
  rw [← hperm.mem_iff] at hmem
  simp at hmem

theorem parse_keys_joined (keys : Finset Nat) (hne : keys ≠ ∅)
    (hcat : ∀ k ∈ keys, (keycode_to_name k).isSome = true) :
    parse_keys (joinSep "+".toList (sortedKeyNames keys)) = .ok keys := by
  have hnames_plus : ∀ n ∈ sortedKeyNames keys, ∀ x ∈ n, x ≠ '+' := by
    intro n hn x hx
    obtain ⟨c, _, hc⟩ := sortedKeyNames_mem keys n hn
    exact ((catalog_name_ok c n hc).2 x hx).1
  rw [parse_keys,
    show ("+".toList : List Char) = ['+'] from rfl,
    splitOnChar_joinSep '+' (sortedKeyNames keys) (sortedKeyNames_ne_nil keys hne hcat)
      hnames_plus]
  rw [parse_keys_go_all_some _ ∅ ?hsome]
  case hsome =>
    intro n hn
    obtain ⟨c, _, hc⟩ := sortedKeyNames_mem keys n hn
    rw [catalog_name_trim c n hc, name_to_keycode_of_keycode_to_name c n hc]
    rfl
  congr 1
  rw [Finset.empty_union]
  have hperm : List.Perm
      ((sortedKeyNames keys).filterMap (fun n => name_to_keycode (trimChars n)))
      (((finsetAsc keys).filterMap keycode_to_name).filterMap
        (fun n => name_to_keycode (trimChars n))) :=
    (List.perm_insertionSort _ _).filterMap _
  rw [List.toFinset_eq_of_perm _ _ hperm,
    codes_of_names (finsetAsc keys) (fun c hc => hcat c ((mem_finsetAsc keys c).mp hc)),
    finsetAsc_toFinset]

/-! ## Character facts about formatted lines -/

theorem joinSep_mem (sep : List Char) (ns : List (List Char)) (x : Char)
    (hx : x ∈ joinSep sep ns) : x ∈ sep ∨ ∃ n ∈ ns, x ∈ n := by
  induction ns with
  | nil => simp [joinSep] at hx
  | cons n rest ih =>
    cases rest with
    | nil =>
      right
      exact ⟨n, List.mem_cons_self n [], by simpa [joinSep] using hx⟩
    | cons n' rest' =>
      rw [joinSep_cons_cons] at hx
      rcases List.mem_append.mp hx with h1 | h1
      · rcases List.mem_append.mp h1 with h2 | h2
        · exact Or.inr ⟨n, List.mem_cons_self n _, h2⟩
        · exact Or.inl h2
      · rcases ih h1 with h2 | ⟨m, hm, hxm⟩
        · exact Or.inl h2
        · exact Or.inr ⟨m, List.mem_cons_of_mem n hm, hxm⟩

theorem natDigits_char_facts (n : Nat) :
    ∀ c ∈ natDigits n, isWsChar c = false ∧ c ≠ '\n' := fun c hc =>
  ⟨ws_false_of_isDigit c (natDigits_all_digit n c hc),
   ne_nl_of_isDigit c (natDigits_all_digit n c hc)⟩

theorem intToChars_char_facts (i : Int) :
    ∀ c ∈ intToChars i, isWsChar c = false ∧ c ≠ '\n' := by
  intro c hc
  rw [intToChars] at hc
  by_cases hneg : i < 0
  · rw [if_pos hneg] at hc
    rcases List.mem_cons.mp hc with h | h
    · subst h
      exact ⟨by decide, by decide⟩
    · exact natDigits_char_facts _ c h
  · rw [if_neg hneg] at hc
    exact natDigits_char_facts _ c hc

theorem joined_names_char_facts (keys : Finset Nat) (x : Char)
    (hx : x ∈ joinSep "+".toList (sortedKeyNames keys)) :
    isWsChar x = false ∧ x ≠ '\n' := by
  rcases joinSep_mem _ _ x hx with h | ⟨n, hn, hxn⟩
  · have : x = '+' := by simpa using h
    subst this
    exact ⟨by decide, by decide⟩
  · obtain ⟨c, _, hc⟩ := sortedKeyNames_mem keys n hn
    have := (catalog_name_ok c n hc).2 x hxn
    exact ⟨this.2.2, this.2.1⟩

theorem splitWs_pair (A B : List Char) (hA : A ≠ []) (hB : B ≠ [])
    (hA' : ∀ x ∈ A, isWsChar x = false) (hB' : ∀ x ∈ B, isWsChar x = false) :
    splitWs (A ++ ' ' :: B) = [A, B] := by
  rw [splitWs, splitOnPred_append isWsChar A ' ' B hA' (by decide),
    splitOnPred_of_all _ B hB']
  simp [List.filter_cons, List.isEmpty_iff, hA, hB]

theorem splitWs_single (A : List Char) (hA : A ≠ [])
    (hA' : ∀ x ∈ A, isWsChar x = false) : splitWs A = [A] := by
  rw [splitWs, splitOnPred_of_all _ A hA']
  simp [List.filter_cons, List.isEmpty_iff, hA]

theorem getLast?_append_right (X J : List Char) (hJ : J ≠ []) :
    (X ++ J).getLast? = J.getLast? := by
  rw [List.getLast?_append]
  rcases h : J.getLast? with _ | c
  · exact absurd (List.getLast?_eq_none_iff.mp h) hJ
  · rfl

theorem ms_suffix_getLast (X : List Char) : (X ++ "ms".toList).getLast? = some 's' := by
  rw [getLast?_append_right X _ (by decide)]
  rfl

/-! ## Round trip, per parser shape -/

theorem parse_duration_roundtrip (d : Nat) (h : d < 2 ^ 64) :
    parse_duration (natDigits d ++ "ms".toList) = .ok d := by
  simp only [parse_duration, stripSuf_append "ms".toList (natDigits d),
    parseU64_natDigits d h]

theorem ms_append_ne_nil (X : List Char) : X ++ "ms".toList ≠ [] :=
  List.append_ne_nil_of_right_ne_nil X (by decide)

theorem trim_waitLine (d : Nat) : trimChars (waitLine d) = waitLine d := by
  apply trimChars_eq_self
  · intro c hc
    rw [show (waitLine d).head? = some 'w' from rfl] at hc
    simp only [Option.some.injEq] at hc
    subst hc
    decide
  · intro c hc
    rw [waitLine, ms_suffix_getLast] at hc
    simp only [Option.some.injEq] at hc
    subst hc
    decide

/-- `format_state` on a non-all-empty state, with the `let`s unfolded. -/
theorem format_state_of_ne (st : MacroState)
    (hne : ¬(st.keys_pressed = ∅ ∧ st.mouse_delta = (0, 0) ∧ st.scroll_delta = (0, 0))) :
    format_state st =
      (if joinSep " ".toList (holdTapInstr st ++ moveInstr st ++
          (if st.scroll_delta = (0, 0) then [] else scrollVInstr st ++ scrollHInstr st)) = []
       then (if 0 < st.duration_ms then waitLine st.duration_ms else "# empty state".toList)
       else if 0 < st.duration_ms ∧ st.keys_pressed = ∅ then
         joinSep " ".toList (holdTapInstr st ++ moveInstr st ++
           (if st.scroll_delta = (0, 0) then [] else scrollVInstr st ++ scrollHInstr st)) ++
           '\n' :: waitLine st.duration_ms
       else joinSep " ".toList (holdTapInstr st ++ moveInstr st ++
         (if st.scroll_delta = (0, 0) then [] else scrollVInstr st ++ scrollHInstr st))) := by
  rw [format_state, if_neg hne]

theorem parse_format_wait (s : MacroState) (h : WaitShaped s) :
    parse_line (format_state s) = .ok s := by
  obtain ⟨hd, hd64, hk, hm, hsc⟩ := h
  have hfmt : format_state s = waitLine s.duration_ms := by
    rw [format_state, if_pos ⟨hk, hm, hsc⟩, if_pos hd]
  rw [hfmt]
  have h1 : stripPre "hold ".toList (waitLine s.duration_ms) = none :=
    stripPre_of_head_ne _ _ 'h' 'w' rfl rfl (by decide)
  have h2 : stripPre "wait ".toList (waitLine s.duration_ms) =
      some (natDigits s.duration_ms ++ "ms".toList) := by
    rw [waitLine, List.append_assoc]
    exact stripPre_append _ _
  simp only [parse_line, trim_waitLine, h1, h2,
    parse_duration_roundtrip s.duration_ms hd64]
  exact congrArg Except.ok ((MacroState.ext_iff' _ _).mpr
    ⟨rfl, hk.symm, hm.symm, hsc.symm⟩)

theorem parse_format_move (s : MacroState) (h : MoveShaped s) :
    parse_line (format_state s) = .ok s := by
  obtain ⟨hd, hk, hsc, hmne, hx1, hx2, hy1, hy2⟩ := h
  have hxne : intToChars s.mouse_delta.1 ≠ [] := by
    rw [intToChars]
    split
    · simp
    · exact natDigits_ne_nil _
  have hyne : intToChars s.mouse_delta.2 ≠ [] := by
    rw [intToChars]
    split
    · simp
    · exact natDigits_ne_nil _
  have hline : format_state s = "move ".toList ++
      (intToChars s.mouse_delta.1 ++ " ".toList ++ intToChars s.mouse_delta.2) := by
    rw [format_state_of_ne s (fun hcon => hmne hcon.2.1)]
    rw [holdTapInstr, if_pos hk, moveInstr, if_neg hmne, if_pos hsc]
    rw [show ([] : List (List Char)) ++ ["move ".toList ++ intToChars s.mouse_delta.1 ++
        " ".toList ++ intToChars s.mouse_delta.2] ++ [] =
      ["move ".toList ++ intToChars s.mouse_delta.1 ++
        " ".toList ++ intToChars s.mouse_delta.2] from by simp]
    rw [show joinSep " ".toList ["move ".toList ++ intToChars s.mouse_delta.1 ++
        " ".toList ++ intToChars s.mouse_delta.2] = "move ".toList ++
        intToChars s.mouse_delta.1 ++ " ".toList ++ intToChars s.mouse_delta.2 from rfl]
    rw [if_neg (show ¬("move ".toList ++ intToChars s.mouse_delta.1 ++ " ".toList ++
        intToChars s.mouse_delta.2 = []) from by simp)]
    rw [if_neg (show ¬(0 < s.duration_ms ∧ s.keys_pressed = ∅) from
      fun hcon => by rw [hd] at hcon; exact absurd hcon.1 (by omega))]
    simp [List.append_assoc]
  have htrim : trimChars (format_state s) = format_state s := by
    apply trimChars_eq_self
    · intro c hc
      rw [hline] at hc
      rw [show ("move ".toList ++ (intToChars s.mouse_delta.1 ++ " ".toList ++
        intToChars s.mouse_delta.2)).head? = some 'm' from rfl] at hc
      simp only [Option.some.injEq] at hc
      subst hc
      decide
    · intro c hc
      rw [hline, getLast?_append_right _ _
          (List.append_ne_nil_of_right_ne_nil _ hyne),
        getLast?_append_right _ _ hyne] at hc
      exact (intToChars_char_facts s.mouse_delta.2 c
        (List.mem_of_getLast?_eq_some hc)).1
  rw [hline] at htrim ⊢
  have h1 : stripPre "hold ".toList ("move ".toList ++
      (intToChars s.mouse_delta.1 ++ " ".toList ++ intToChars s.mouse_delta.2)) = none :=
    stripPre_of_head_ne _ _ 'h' 'm' rfl rfl (by decide)
  have h2 : stripPre "wait ".toList ("move ".toList ++
      (intToChars s.mouse_delta.1 ++ " ".toList ++ intToChars s.mouse_delta.2)) = none :=
    stripPre_of_head_ne _ _ 'w' 'm' rfl rfl (by decide)
  have h3 : stripPre "move ".toList ("move ".toList ++
      (intToChars s.mouse_delta.1 ++ " ".toList ++ intToChars s.mouse_delta.2)) =
      some (intToChars s.mouse_delta.1 ++ " ".toList ++ intToChars s.mouse_delta.2) :=
    stripPre_append _ _
  have h4 : splitWs (intToChars s.mouse_delta.1 ++ " ".toList ++
      intToChars s.mouse_delta.2) = [intToChars s.mouse_delta.1,
        intToChars s.mouse_delta.2] := by
    rw [List.append_assoc, show (" ".toList : List Char) ++ intToChars s.mouse_delta.2 =
      ' ' :: intToChars s.mouse_delta.2 from rfl]
    exact splitWs_pair _ _ hxne hyne
      (fun x hx => (intToChars_char_facts _ x hx).1)
      (fun x hx => (intToChars_char_facts _ x hx).1)
  simp only [parse_line, htrim, h1, h2, h3, h4,
    parseI32_intToChars s.mouse_delta.1 hx1 hx2,
    parseI32_intToChars s.mouse_delta.2 hy1 hy2]
  exact congrArg Except.ok ((MacroState.ext_iff' _ _).mpr
    ⟨hd.symm, hk.symm, rfl, hsc.symm⟩)

theorem parseI32_natDigits (m : Nat) (h : m < 2 ^ 31) :
    parseI32 (natDigits m) = some (m : Int) := by
  have hb : ((m : Int) < 2 ^ 31) := by omega
  have := parseI32_intToChars (m : Int) (by omega) hb
  rwa [intToChars, if_neg (by omega), Int.natAbs_ofNat] at this

theorem parse_line_scroll_generic (D : List Char) (m : Nat) (hD : D ≠ [])
    (hDw : ∀ x ∈ D, isWsChar x = false) (hm : m < 2 ^ 31) :
    parse_line ("scroll ".toList ++ (D ++ (' ' :: natDigits m))) =
      (if D = "up".toList then .ok ⟨0, ∅, (0, 0), ((m : Int), 0)⟩
       else if D = "down".toList then .ok ⟨0, ∅, (0, 0), (-(m : Int), 0)⟩
       else if D = "left".toList then .ok ⟨0, ∅, (0, 0), (0, -(m : Int))⟩
       else if D = "right".toList then .ok ⟨0, ∅, (0, 0), (0, (m : Int))⟩
       else .error ("Invalid scroll direction '".toList ++ D ++
         "', use up/down/left/right".toList)) := by
  have hrest_ne : D ++ (' ' :: natDigits m) ≠ [] :=
    List.append_ne_nil_of_right_ne_nil D (by simp)
  have htrim : trimChars ("scroll ".toList ++ (D ++ (' ' :: natDigits m))) =
      "scroll ".toList ++ (D ++ (' ' :: natDigits m)) := by
    apply trimChars_eq_self
    · intro c hc
      rw [show ("scroll ".toList ++ (D ++ (' ' :: natDigits m))).head? = some 's'
        from rfl] at hc
      simp only [Option.some.injEq] at hc
      subst hc
      decide
    · intro c hc
      rw [getLast?_append_right _ _ hrest_ne,
        getLast?_append_right _ _ (show (' ' :: natDigits m) ≠ [] by simp),
        show (' ' :: natDigits m) = [' '] ++ natDigits m from rfl,
        getLast?_append_right _ _ (natDigits_ne_nil m)] at hc
      exact (natDigits_char_facts m c (List.mem_of_getLast?_eq_some hc)).1
  have h1 : stripPre "hold ".toList ("scroll ".toList ++ (D ++ (' ' :: natDigits m))) =
      none := stripPre_of_head_ne _ _ 'h' 's' rfl rfl (by decide)
  have h2 : stripPre "wait ".toList ("scroll ".toList ++ (D ++ (' ' :: natDigits m))) =
      none := stripPre_of_head_ne _ _ 'w' 's' rfl rfl (by decide)
  have h3 : stripPre "move ".toList ("scroll ".toList ++ (D ++ (' ' :: natDigits m))) =
      none := stripPre_of_head_ne _ _ 'm' 's' rfl rfl (by decide)
  have h4 : stripPre "scroll ".toList ("scroll ".toList ++ (D ++ (' ' :: natDigits m))) =
      some (D ++ (' ' :: natDigits m)) := stripPre_append _ _
  have h5 : splitWs (D ++ (' ' :: natDigits m)) = [D, natDigits m] :=
    splitWs_pair D (natDigits m) hD (natDigits_ne_nil m) hDw
      (fun x hx => (natDigits_char_facts m x hx).1)
  simp only [parse_line, htrim, h1, h2, h3, h4, h5, parseI32_natDigits m hm]

theorem parse_format_scroll (s : MacroState) (h : ScrollShaped s) :
    parse_line (format_state s) = .ok s := by
  obtain ⟨hd, hk, hm, hor⟩ := h
  have hscne : ¬(s.keys_pressed = ∅ ∧ s.mouse_delta = (0, 0) ∧
      s.scroll_delta = (0, 0)) := by
    intro hcon
    rcases hor with ⟨hv, _, _, _⟩ | ⟨_, hh, _, _⟩
    · exact hv (by rw [hcon.2.2])
    · exact hh (by rw [hcon.2.2])
  have hgne : s.scroll_delta ≠ (0, 0) := by
    intro hcon
    rcases hor with ⟨hv, _, _, _⟩ | ⟨_, hh, _, _⟩
    · exact hv (by rw [hcon])
    · exact hh (by rw [hcon])
  have hfmt0 := format_state_of_ne s hscne
  rw [holdTapInstr, if_pos hk, moveInstr, if_pos hm, if_neg hgne] at hfmt0
  rcases hor with ⟨hv, hh, hb1, hb2⟩ | ⟨hv, hh, hb1, hb2⟩
  · -- vertical scroll: scroll_delta = (v, 0) with v ≠ 0
    rw [scrollVInstr, if_neg hv, scrollHInstr, if_pos hh] at hfmt0
    have habs : s.scroll_delta.1.natAbs < 2 ^ 31 := by omega
    by_cases hpos : 0 < s.scroll_delta.1
    · rw [if_pos hpos] at hfmt0
      have hfmt : format_state s =
          "scroll ".toList ++ ("up".toList ++ (' ' :: natDigits s.scroll_delta.1.natAbs)) := by
        rw [hfmt0]
        rw [if_neg (show ¬(joinSep " ".toList ([] ++ [] ++
          (["scroll up ".toList ++ natDigits s.scroll_delta.1.natAbs] ++ [])) = [])
          from by simp [joinSep])]
        rw [if_neg (fun hcon => by rw [hd] at hcon; exact absurd hcon.1 (by omega))]
        simp [joinSep]
      rw [hfmt, parse_line_scroll_generic "up".toList _ (by decide) (by decide) habs,
        if_pos rfl]
      refine congrArg Except.ok ((MacroState.ext_iff' _ _).mpr
        ⟨hd.symm, hk.symm, hm.symm, ?_⟩)
      have : ((s.scroll_delta.1.natAbs : Int), (0 : Int)) = s.scroll_delta := by
        rw [Prod.ext_iff]
        exact ⟨by omega, hh.symm⟩
      rw [this]
    · rw [if_neg hpos] at hfmt0
      have hfmt : format_state s =
          "scroll ".toList ++ ("down".toList ++ (' ' :: natDigits s.scroll_delta.1.natAbs)) := by
        rw [hfmt0]
        rw [if_neg (show ¬(joinSep " ".toList ([] ++ [] ++
          (["scroll down ".toList ++ natDigits s.scroll_delta.1.natAbs] ++ [])) = [])
          from by simp [joinSep])]
        rw [if_neg (fun hcon => by rw [hd] at hcon; exact absurd hcon.1 (by omega))]
        simp [joinSep]
      rw [hfmt, parse_line_scroll_generic "down".toList _ (by decide) (by decide) habs,
        if_neg (by decide), if_pos rfl]
      refine congrArg Except.ok ((MacroState.ext_iff' _ _).mpr
        ⟨hd.symm, hk.symm, hm.symm, ?_⟩)
      have : (-(s.scroll_delta.1.natAbs : Int), (0 : Int)) = s.scroll_delta := by
        rw [Prod.ext_iff]
        exact ⟨by omega, hh.symm⟩
      rw [this]
  · -- horizontal scroll: scroll_delta = (0, h) with h ≠ 0
    rw [scrollVInstr, if_pos hv, scrollHInstr, if_neg hh] at hfmt0
    have habs : s.scroll_delta.2.natAbs < 2 ^ 31 := by omega
    by_cases hpos : 0 < s.scroll_delta.2
    · rw [if_pos hpos] at hfmt0
      have hfmt : format_state s =
          "scroll ".toList ++ ("right".toList ++ (' ' :: natDigits s.scroll_delta.2.natAbs)) := by
        rw [hfmt0]
        rw [if_neg (show ¬(joinSep " ".toList ([] ++ [] ++
          ([] ++ ["scroll right ".toList ++ natDigits s.scroll_delta.2.natAbs])) = [])
          from by simp [joinSep])]
        rw [if_neg (fun hcon => by rw [hd] at hcon; exact absurd hcon.1 (by omega))]
        simp [joinSep]
      rw [hfmt, parse_line_scroll_generic "right".toList _ (by decide) (by decide) habs,
        if_neg (by decide), if_neg (by decide), if_neg (by decide), if_pos rfl]
      refine congrArg Except.ok ((MacroState.ext_iff' _ _).mpr
        ⟨hd.symm, hk.symm, hm.symm, ?_⟩)
      have : ((0 : Int), (s.scroll_delta.2.natAbs : Int)) = s.scroll_delta := by
        rw [Prod.ext_iff]
        exact ⟨hv.symm, by omega⟩
      rw [this]
    · rw [if_neg hpos] at hfmt0
      have hfmt : format_state s =
          "scroll ".toList ++ ("left".toList ++ (' ' :: natDigits s.scroll_delta.2.natAbs)) := by
        rw [hfmt0]
        rw [if_neg (show ¬(joinSep " ".toList ([] ++ [] ++
          ([] ++ ["scroll left ".toList ++ natDigits s.scroll_delta.2.natAbs])) = [])
          from by simp [joinSep])]
        rw [if_neg (fun hcon => by rw [hd] at hcon; exact absurd hcon.1 (by omega))]
        simp [joinSep]
      rw [hfmt, parse_line_scroll_generic "left".toList _ (by decide) (by decide) habs,
        if_neg (by decide), if_neg (by decide), if_pos rfl]
      refine congrArg Except.ok ((MacroState.ext_iff' _ _).mpr
        ⟨hd.symm, hk.symm, hm.symm, ?_⟩)
      have : ((0 : Int), -(s.scroll_delta.2.natAbs : Int)) = s.scroll_delta := by
        rw [Prod.ext_iff]
        exact ⟨hv.symm, by omega⟩
      rw [this]

theorem joinSep_ne_nil (sep : List Char) (ns : List (List Char)) (h1 : ns ≠ [])
    (h2 : ∀ n ∈ ns, n ≠ []) : joinSep sep ns ≠ [] := by
  cases ns with
  | nil => exact absurd rfl h1
  | cons n rest =>
    cases rest with
    | nil => exact h2 n (List.mem_cons_self n [])
    | cons n' rest' =>
      rw [joinSep_cons_cons]
      exact List.append_ne_nil_of_left_ne_nil
        (List.append_ne_nil_of_left_ne_nil (h2 n (List.mem_cons_self n _)) sep) _

theorem holdtap_facts (s : MacroState) (h : HoldTapShaped s) :
    joinSep "+".toList (sortedKeyNames s.keys_pressed) ≠ [] ∧
    (∀ x ∈ joinSep "+".toList (sortedKeyNames s.keys_pressed),
      isWsChar x = false ∧ x ≠ '\n') := by
  obtain ⟨hkne, hcat, _, _, _⟩ := h
  constructor
  · refine joinSep_ne_nil _ _ (sortedKeyNames_ne_nil s.keys_pressed hkne hcat) ?_
    intro n hn
    obtain ⟨c, _, hc⟩ := sortedKeyNames_mem s.keys_pressed n hn
    exact (catalog_name_ok c n hc).1
  · exact fun x hx => joined_names_char_facts s.keys_pressed x hx

theorem parse_format_holdtap (s : MacroState) (h : HoldTapShaped s) :
    parse_line (format_state s) = .ok s := by
  obtain ⟨hkne, hcat, hd64, hm, hsc⟩ := h
  obtain ⟨hJne, hJchars⟩ := holdtap_facts s ⟨hkne, hcat, hd64, hm, hsc⟩
  have hkeys := parse_keys_joined s.keys_pressed hkne hcat
  have hfmt0 := format_state_of_ne s (fun hcon => hkne hcon.1)
  rw [moveInstr, if_pos hm, if_pos hsc] at hfmt0
  by_cases hdur : 0 < s.duration_ms
  · -- hold
    have hinstr : holdTapInstr s = ["hold ".toList ++
        joinSep "+".toList (sortedKeyNames s.keys_pressed) ++ " for ".toList ++
        natDigits s.duration_ms ++ "ms".toList] := by
      rw [holdTapInstr, if_neg hkne, if_pos hdur]
    rw [hinstr] at hfmt0
    have hfmt : format_state s = "hold ".toList ++
        joinSep "+".toList (sortedKeyNames s.keys_pressed) ++ " for ".toList ++
        natDigits s.duration_ms ++ "ms".toList := by
      rw [hfmt0]
      rw [if_neg (show ¬(joinSep " ".toList (["hold ".toList ++
          joinSep "+".toList (sortedKeyNames s.keys_pressed) ++ " for ".toList ++
          natDigits s.duration_ms ++ "ms".toList] ++ [] ++ []) = [])
        from by simp [joinSep, ms_append_ne_nil])]
      rw [if_neg (fun hcon => hkne hcon.2)]
      simp [joinSep]
    have htrim : trimChars ("hold ".toList ++
        joinSep "+".toList (sortedKeyNames s.keys_pressed) ++ " for ".toList ++
        natDigits s.duration_ms ++ "ms".toList) = "hold ".toList ++
        joinSep "+".toList (sortedKeyNames s.keys_pressed) ++ " for ".toList ++
        natDigits s.duration_ms ++ "ms".toList := by
      apply trimChars_eq_self
      · intro c hc
        rw [show ("hold ".toList ++
            joinSep "+".toList (sortedKeyNames s.keys_pressed) ++ " for ".toList ++
            natDigits s.duration_ms ++ "ms".toList).head? = some 'h' from by
          rw [List.append_assoc, List.append_assoc, List.append_assoc]
          rfl] at hc
        simp only [Option.some.injEq] at hc
        subst hc
        decide
      · intro c hc
        rw [ms_suffix_getLast] at hc
        simp only [Option.some.injEq] at hc
        subst hc
        decide
    have hsp : stripPre "hold ".toList ("hold ".toList ++
        joinSep "+".toList (sortedKeyNames s.keys_pressed) ++ " for ".toList ++
        natDigits s.duration_ms ++ "ms".toList) =
        some (joinSep "+".toList (sortedKeyNames s.keys_pressed) ++
          (" for ".toList ++ (natDigits s.duration_ms ++ "ms".toList))) := by
      rw [List.append_assoc, List.append_assoc, List.append_assoc]
      exact stripPre_append _ _
    have hsplit : splitOnList " for ".toList
        (joinSep "+".toList (sortedKeyNames s.keys_pressed) ++
          (" for ".toList ++ (natDigits s.duration_ms ++ "ms".toList))) =
        [joinSep "+".toList (sortedKeyNames s.keys_pressed),
          natDigits s.duration_ms ++ "ms".toList] := by
      rw [show (" for ".toList : List Char) = ' ' :: "for ".toList from rfl,
        ← List.append_assoc]
      refine splitOnList_split ' ' "for ".toList _ _ ?_ ?_
      · intro x hx heq
        subst heq
        exact absurd (hJchars ' ' hx).1 (by decide)
      · intro x hx heq
        subst heq
        rcases List.mem_append.mp hx with h1 | h1
        · exact absurd (ws_false_of_isDigit ' ' (natDigits_all_digit _ ' ' h1)) (by decide)
        · simp at h1
    rw [hfmt]
    simp only [parse_line, htrim, hsp, hsplit,
      parse_duration_roundtrip s.duration_ms hd64, hkeys]
    exact congrArg Except.ok ((MacroState.ext_iff'
      ⟨s.duration_ms, s.keys_pressed, (0, 0), (0, 0)⟩ s).mpr
      ⟨rfl, rfl, hm.symm, hsc.symm⟩)
  · -- tap
    have hinstr : holdTapInstr s = ["tap ".toList ++
        joinSep "+".toList (sortedKeyNames s.keys_pressed)] := by
      rw [holdTapInstr, if_neg hkne, if_neg hdur]
    rw [hinstr] at hfmt0
    have hfmt : format_state s = "tap ".toList ++
        joinSep "+".toList (sortedKeyNames s.keys_pressed) := by
      rw [hfmt0]
      rw [if_neg (show ¬(joinSep " ".toList (["tap ".toList ++
          joinSep "+".toList (sortedKeyNames s.keys_pressed)] ++ [] ++ []) = [])
        from by simp [joinSep])]
      rw [if_neg (fun hcon => hkne hcon.2)]
      simp [joinSep]
    have htrim : trimChars ("tap ".toList ++
        joinSep "+".toList (sortedKeyNames s.keys_pressed)) = "tap ".toList ++
        joinSep "+".toList (sortedKeyNames s.keys_pressed) := by
      apply trimChars_eq_self
      · intro c hc
        rw [show ("tap ".toList ++
            joinSep "+".toList (sortedKeyNames s.keys_pressed)).head? = some 't'
          from rfl] at hc
        simp only [Option.some.injEq] at hc
        subst hc
        decide
      · intro c hc
        rw [getLast?_append_right _ _ hJne] at hc
        exact (hJchars c (List.mem_of_getLast?_eq_some hc)).1
    have h1 : stripPre "hold ".toList ("tap ".toList ++
        joinSep "+".toList (sortedKeyNames s.keys_pressed)) = none :=
      stripPre_of_head_ne _ _ 'h' 't' rfl rfl (by decide)
    have h2 : stripPre "wait ".toList ("tap ".toList ++
        joinSep "+".toList (sortedKeyNames s.keys_pressed)) = none :=
      stripPre_of_head_ne _ _ 'w' 't' rfl rfl (by decide)
    have h3 : stripPre "move ".toList ("tap ".toList ++
        joinSep "+".toList (sortedKeyNames s.keys_pressed)) = none :=
      stripPre_of_head_ne _ _ 'm' 't' rfl rfl (by decide)
    have h4 : stripPre "scroll ".toList ("tap ".toList ++
        joinSep "+".toList (sortedKeyNames s.keys_pressed)) = none :=
      stripPre_of_head_ne _ _ 's' 't' rfl rfl (by decide)
    have h5 : stripPre "tap ".toList ("tap ".toList ++
        joinSep "+".toList (sortedKeyNames s.keys_pressed)) =
        some (joinSep "+".toList (sortedKeyNames s.keys_pressed)) :=
      stripPre_append _ _
    rw [hfmt]
    simp only [parse_line, htrim, h1, h2, h3, h4, h5, hkeys]
    exact congrArg Except.ok ((MacroState.ext_iff'
      ⟨0, s.keys_pressed, (0, 0), (0, 0)⟩ s).mpr
      ⟨show 0 = s.duration_ms by omega, rfl, hm.symm, hsc.symm⟩)

/-! ## Newline-freedom of the instruction pieces, and the line split -/

theorem no_nl_of_all (l : List Char)
    (hl : l.all (fun c => decide (c ≠ '\n')) = true) : ∀ c ∈ l, c ≠ '\n' :=
  fun c hc => by simpa using List.all_eq_true.mp hl c hc

theorem waitLine_no_nl (d : Nat) : ∀ c ∈ waitLine d, c ≠ '\n' := by
  intro c hc
  rw [waitLine] at hc
  rcases List.mem_append.mp hc with h1 | h1
  · rcases List.mem_append.mp h1 with h2 | h2
    · exact no_nl_of_all _ (by decide) c h2
    · exact ne_nl_of_isDigit c (natDigits_all_digit d c h2)
  · exact no_nl_of_all _ (by decide) c h1

theorem holdTapInstr_no_nl (s : MacroState) :
    ∀ p ∈ holdTapInstr s, ∀ c ∈ p, c ≠ '\n' := by
  intro p hp c hc
  rw [holdTapInstr] at hp
  by_cases hk : s.keys_pressed = ∅
  · rw [if_pos hk] at hp
    simp at hp
  · rw [if_neg hk] at hp
    by_cases hd : 0 < s.duration_ms
    · rw [if_pos hd] at hp
      simp only [List.mem_singleton] at hp
      subst hp
      rcases List.mem_append.mp hc with h1 | h1
      · rcases List.mem_append.mp h1 with h2 | h2
        · rcases List.mem_append.mp h2 with h3 | h3
          · rcases List.mem_append.mp h3 with h4 | h4
            · exact no_nl_of_all _ (by decide) c h4
            · exact (joined_names_char_facts s.keys_pressed c h4).2
          · exact no_nl_of_all _ (by decide) c h3
        · exact ne_nl_of_isDigit c (natDigits_all_digit _ c h2)
      · exact no_nl_of_all _ (by decide) c h1
    · rw [if_neg hd] at hp
      simp only [List.mem_singleton] at hp
      subst hp
      rcases List.mem_append.mp hc with h1 | h1
      · exact no_nl_of_all _ (by decide) c h1
      · exact (joined_names_char_facts s.keys_pressed c h1).2

theorem moveInstr_no_nl (s : MacroState) :
    ∀ p ∈ moveInstr s, ∀ c ∈ p, c ≠ '\n' := by
  intro p hp c hc
  rw [moveInstr] at hp
  by_cases hm : s.mouse_delta = (0, 0)
  · rw [if_pos hm] at hp
    simp at hp
  · rw [if_neg hm] at hp
    simp only [List.mem_singleton] at hp
    subst hp
    rcases List.mem_append.mp hc with h1 | h1
    · rcases List.mem_append.mp h1 with h2 | h2
      · rcases List.mem_append.mp h2 with h3 | h3
        · exact no_nl_of_all _ (by decide) c h3
        · exact (intToChars_char_facts _ c h3).2
      · exact no_nl_of_all _ (by decide) c h2
    · exact (intToChars_char_facts _ c h1).2

theorem scrollVInstr_no_nl (s : MacroState) :
    ∀ p ∈ scrollVInstr s, ∀ c ∈ p, c ≠ '\n' := by
  intro p hp c hc
  rw [scrollVInstr] at hp
  split at hp
  · simp at hp
  · split at hp <;>
    · simp only [List.mem_singleton] at hp
      subst hp
      rcases List.mem_append.mp hc with h1 | h1
      · exact no_nl_of_all _ (by decide) c h1
      · exact ne_nl_of_isDigit c (natDigits_all_digit _ c h1)

theorem scrollHInstr_no_nl (s : MacroState) :
    ∀ p ∈ scrollHInstr s, ∀ c ∈ p, c ≠ '\n' := by
  intro p hp c hc
  rw [scrollHInstr] at hp
  split at hp
  · simp at hp
  · split at hp <;>
    · simp only [List.mem_singleton] at hp
      subst hp
      rcases List.mem_append.mp hc with h1 | h1
      · exact no_nl_of_all _ (by decide) c h1
      · exact ne_nl_of_isDigit c (natDigits_all_digit _ c h1)

/-- The single space-joined instruction line of a non-empty state has no
embedded newline. -/
theorem instr_join_no_nl (s : MacroState) :
    ∀ c ∈ joinSep " ".toList (holdTapInstr s ++ moveInstr s ++
      (if s.scroll_delta = (0, 0) then [] else scrollVInstr s ++ scrollHInstr s)),
      c ≠ '\n' := by
  intro c hc
  rcases joinSep_mem _ _ c hc with h | ⟨p, hp, hcp⟩
  · exact no_nl_of_all _ (by decide) c h
  · rcases List.mem_append.mp hp with h1 | h1
    · rcases List.mem_append.mp h1 with h2 | h2
      · exact holdTapInstr_no_nl s p h2 c hcp
      · exact moveInstr_no_nl s p h2 c hcp
    · by_cases hsc : s.scroll_delta = (0, 0)
      · rw [if_pos hsc] at h1
        simp at h1
      · rw [if_neg hsc] at h1
        rcases List.mem_append.mp h1 with h2 | h2
        · exact scrollVInstr_no_nl s p h2 c hcp
        · exact scrollHInstr_no_nl s p h2 c hcp

theorem splitNl_single (l : List Char) (h : ∀ c ∈ l, c ≠ '\n') :
    splitOnChar '\n' l = [l] :=
  splitOnPred_of_all _ l fun c hc => by simp [h c hc]

/-- For a state that is not a duration-bearing mouse/scroll state, the
formatted string is a single file line. -/
theorem formatLines_single (s : MacroState)
    (hs : s.keys_pressed ≠ ∅ ∨ s.duration_ms = 0 ∨
      (s.mouse_delta = (0, 0) ∧ s.scroll_delta = (0, 0))) :
    formatLines s = [format_state s] := by
  rw [formatLines]
  apply splitNl_single
  intro c hc
  by_cases hempty : s.keys_pressed = ∅ ∧ s.mouse_delta = (0, 0) ∧
      s.scroll_delta = (0, 0)
  · rw [format_state, if_pos hempty] at hc
    by_cases hd : 0 < s.duration_ms
    · rw [if_pos hd] at hc
      exact waitLine_no_nl _ c hc
    · rw [if_neg hd] at hc
      exact no_nl_of_all _ (by decide) c hc
  · rw [format_state_of_ne s hempty] at hc
    by_cases hres : joinSep " ".toList (holdTapInstr s ++ moveInstr s ++
        (if s.scroll_delta = (0, 0) then [] else scrollVInstr s ++ scrollHInstr s)) = []
    · rw [if_pos hres] at hc
      by_cases hd : 0 < s.duration_ms
      · rw [if_pos hd] at hc
        exact waitLine_no_nl _ c hc
      · rw [if_neg hd] at hc
        exact no_nl_of_all _ (by decide) c hc
    · rw [if_neg hres] at hc
      have hnotwait : ¬(0 < s.duration_ms ∧ s.keys_pressed = ∅) := by
        intro hcon
        rcases hs with h | h | h
        · exact h hcon.2
        · omega
        · exact hempty ⟨hcon.2, h.1, h.2⟩
      rw [if_neg hnotwait] at hc
      exact instr_join_no_nl s c hc

/-! ## Trim idempotence and generic facts about successful parses -/

theorem dropWhile_head_not (p : Char → Bool) (l : List Char) :
    ∀ c, (l.dropWhile p).head? = some c → p c = false := by
  induction l with
  | nil => intro c hc; simp at hc
  | cons x xs ih =>
    intro c hc
    rw [List.dropWhile_cons] at hc
    by_cases hx : p x
    · rw [if_pos hx] at hc
      exact ih c hc
    · rw [if_neg hx] at hc
      simp only [List.head?_cons, Option.some.injEq] at hc
      subst hc
      simpa using hx

theorem trimChars_head_ok (l : List Char) :
    ∀ c, (trimChars l).head? = some c → isWsChar c = false := by
  intro c hc
  rw [trimChars, List.head?_reverse] at hc
  have hZne : (l.dropWhile isWsChar).reverse.dropWhile isWsChar ≠ [] := by
    intro hnil
    rw [hnil] at hc
    simp at hc
  obtain ⟨pre, hpre⟩ :=
    @List.dropWhile_suffix Char ((l.dropWhile isWsChar).reverse) isWsChar
  have hY : ((l.dropWhile isWsChar).reverse).getLast? = some c := by
    rw [← hpre, getLast?_append_right pre _ hZne]
    exact hc
  rw [List.getLast?_reverse] at hY
  exact dropWhile_head_not isWsChar l c hY

theorem trimChars_last_ok (l : List Char) :
    ∀ c, (trimChars l).getLast? = some c → isWsChar c = false := by
  intro c hc
  rw [trimChars, List.getLast?_reverse] at hc
  exact dropWhile_head_not isWsChar _ c hc

theorem trimChars_idem (l : List Char) : trimChars (trimChars l) = trimChars l :=
  trimChars_eq_self _ (trimChars_head_ok l) (trimChars_last_ok l)

theorem parse_line_trim (l : List Char) : parse_line (trimChars l) = parse_line l := by
  simp only [parse_line, trimChars_idem]

theorem stripPre_nil (c : Char) (p : List Char) : stripPre (c :: p) [] = none := by
  rw [stripPre, if_neg]
  simp

theorem parse_line_ok_not_skipped (l : List Char) (st : MacroState)
    (h : parse_line l = .ok st) :
    trimChars l ≠ [] ∧ (trimChars l).head? ≠ some '#' := by
  constructor
  · intro hnil
    rw [parse_line, hnil] at h
    rw [show stripPre "hold ".toList [] = none from stripPre_nil _ _,
      show stripPre "wait ".toList [] = none from stripPre_nil _ _,
      show stripPre "move ".toList [] = none from stripPre_nil _ _,
      show stripPre "scroll ".toList [] = none from stripPre_nil _ _,
      show stripPre "tap ".toList [] = none from stripPre_nil _ _] at h
    simp at h
  · intro hhash
    rw [parse_line] at h
    rw [stripPre_of_head_ne "hold ".toList (trimChars l) 'h' '#' rfl hhash (by decide),
      stripPre_of_head_ne "wait ".toList (trimChars l) 'w' '#' rfl hhash (by decide),
      stripPre_of_head_ne "move ".toList (trimChars l) 'm' '#' rfl hhash (by decide),
      stripPre_of_head_ne "scroll ".toList (trimChars l) 's' '#' rfl hhash (by decide),
      stripPre_of_head_ne "tap ".toList (trimChars l) 't' '#' rfl hhash (by decide)] at h
    simp at h

/-! ## Assembling the round trip -/

theorem parse_format_shaped (s : MacroState) (h : ParserShaped s) :
    parse_line (format_state s) = .ok s := by
  rcases h with h | h | h | h
  · exact parse_format_holdtap s h
  · exact parse_format_wait s h
  · exact parse_format_move s h
  · exact parse_format_scroll s h

theorem formatLines_shaped (s : MacroState) (h : ParserShaped s) :
    formatLines s = [format_state s] := by
  apply formatLines_single
  rcases h with h | h | h | h
  · exact Or.inl h.1
  · exact Or.inr (Or.inr ⟨h.2.2.2.1, h.2.2.2.2⟩)
  · exact Or.inr (Or.inl h.1)
  · exact Or.inr (Or.inl h.1)

theorem loadLines_flatMap (states : List MacroState) :
    ∀ n, (∀ s ∈ states, ParserShaped s) →
    loadLines (states.flatMap formatLines) n = .ok states := by
  induction states with
  | nil => intro n _; rfl
  | cons s rest ih =>
    intro n h
    have hsh := h s (List.mem_cons_self s rest)
    rw [List.flatMap_cons, formatLines_shaped s hsh, List.singleton_append]
    have hok : parse_line (format_state s) = .ok s := parse_format_shaped s hsh
    obtain ⟨hne, hhash⟩ := parse_line_ok_not_skipped _ _ hok
    have htp : parse_line (trimChars (format_state s)) = .ok s := by
      rw [parse_line_trim]
      exact hok
    simp only [loadLines, if_neg hne, if_neg hhash, htp,
      ih (n + 1) (fun t ht => h t (List.mem_cons_of_mem s ht))]
    rfl

/-- `load` skips the three header lines written by `save`. -/
theorem loadLines_header (rest : List (List Char)) (n : Nat) :
    loadLines (headerLines ++ rest) n = loadLines rest (n + 3) := by
  rw [headerLines]
  show loadLines ("# EvKey Macro".toList :: "# Layout: QWERTY".toList :: [] :: rest) n = _
  rw [loadLines]
  rw [if_neg (by decide), if_pos (by decide)]
  rw [loadLines]
  rw [if_neg (by decide), if_pos (by decide)]
  rw [loadLines]
  rw [if_pos (by decide)]

/-! ## Claim C1 (corrected) -/

/-- C1, counterexample: the round-trip property fails on a non-degenerate
state that combines a mouse delta with a positive duration.  `save` writes
it as two lines (`move 1 2` and `wait 500ms`), so `load` returns *two*
states, neither carrying both the delta and the duration, instead of the
original single state. -/
theorem claim1_counterexample :
    loadLines (saveLines [⟨500, ∅, (1, 2), (0, 0)⟩]) 0 =
      .ok [⟨0, ∅, (1, 2), (0, 0)⟩, ⟨500, ∅, (0, 0), (0, 0)⟩] ∧
    loadLines (saveLines [⟨500, ∅, (1, 2), (0, 0)⟩]) 0 ≠
      .ok [⟨500, ∅, (1, 2), (0, 0)⟩] := by
  constructor
  · decide
  · decide

/-- C1, amended: for every sequence of Macro States in which each state has
one of the four shapes the line parser itself produces — hold/tap (nonempty
Key-Catalog keys, no deltas, u64 duration), wait (positive duration only),
move (zero duration, nonzero i32 mouse delta only), or single-axis scroll
(zero duration, one nonzero i32 scroll axis, not `i32::MIN`) — parsing the
serialized text yields a Macro State sequence equal to the original
field-for-field, with key-set ordering irrelevant (key sets are `Finset`s). -/
theorem claim1_roundtrip (states : List MacroState)
    (h : ∀ s ∈ states, ParserShaped s) :
    loadLines (saveLines states) 0 = .ok states := by
  rw [saveLines, loadLines_header]
  exact loadLines_flatMap states 3 h

/-- C1, witness: the amended round trip at a concrete shaped sequence
(hold, tap, wait, move, both scroll axes). -/
theorem claim1_witness :
    (∀ s ∈ [(⟨100, {17, 30}, (0, 0), (0, 0)⟩ : MacroState),
        ⟨0, {42}, (0, 0), (0, 0)⟩, ⟨250, ∅, (0, 0), (0, 0)⟩,
        ⟨0, ∅, (3, -4), (0, 0)⟩, ⟨0, ∅, (0, 0), (-5, 0)⟩,
        ⟨0, ∅, (0, 0), (0, 7)⟩], ParserShaped s) ∧
    loadLines (saveLines [⟨100, {17, 30}, (0, 0), (0, 0)⟩,
        ⟨0, {42}, (0, 0), (0, 0)⟩, ⟨250, ∅, (0, 0), (0, 0)⟩,
        ⟨0, ∅, (3, -4), (0, 0)⟩, ⟨0, ∅, (0, 0), (-5, 0)⟩,
        ⟨0, ∅, (0, 0), (0, 7)⟩]) 0 =
      .ok [⟨100, {17, 30}, (0, 0), (0, 0)⟩, ⟨0, {42}, (0, 0), (0, 0)⟩,
        ⟨250, ∅, (0, 0), (0, 0)⟩, ⟨0, ∅, (3, -4), (0, 0)⟩,
        ⟨0, ∅, (0, 0), (-5, 0)⟩, ⟨0, ∅, (0, 0), (0, 7)⟩] := by
  have hsh : ∀ s ∈ [(⟨100, {17, 30}, (0, 0), (0, 0)⟩ : MacroState),
      ⟨0, {42}, (0, 0), (0, 0)⟩, ⟨250, ∅, (0, 0), (0, 0)⟩,
      ⟨0, ∅, (3, -4), (0, 0)⟩, ⟨0, ∅, (0, 0), (-5, 0)⟩,
      ⟨0, ∅, (0, 0), (0, 7)⟩], ParserShaped s := by
    intro s hs
    simp only [List.mem_cons, List.mem_singleton] at hs
    rcases hs with rfl | rfl | rfl | rfl | rfl | rfl | hfalse
    · exact Or.inl ⟨by decide, by decide, by decide, rfl, rfl⟩
    · exact Or.inl ⟨by decide, by decide, by decide, rfl, rfl⟩
    · exact Or.inr (Or.inl ⟨by decide, by decide, rfl, rfl, rfl⟩)
    · exact Or.inr (Or.inr (Or.inl ⟨rfl, rfl, rfl, by decide, by decide,
        by decide, by decide, by decide⟩))
    · exact Or.inr (Or.inr (Or.inr ⟨rfl, rfl, rfl,
        Or.inl ⟨by decide, rfl, by decide, by decide⟩⟩))
    · exact Or.inr (Or.inr (Or.inr ⟨rfl, rfl, rfl,
        Or.inr ⟨rfl, by decide, by decide, by decide⟩⟩))
    · exact absurd hfalse (List.not_mem_nil s)
  exact ⟨hsh, claim1_roundtrip _ hsh⟩

/-! ## Claim C2 (corrected) -/

theorem holdTapInstr_mem_ne_nil (s : MacroState) : ∀ p ∈ holdTapInstr s, p ≠ [] := by
  intro p hp
  rw [holdTapInstr] at hp
  by_cases hk : s.keys_pressed = ∅
  · rw [if_pos hk] at hp
    simp at hp
  · rw [if_neg hk] at hp
    by_cases hd : 0 < s.duration_ms
    · rw [if_pos hd] at hp
      simp only [List.mem_singleton] at hp
      subst hp
      exact ms_append_ne_nil _
    · rw [if_neg hd] at hp
      simp only [List.mem_singleton] at hp
      subst hp
      exact List.append_ne_nil_of_left_ne_nil (by decide) _

theorem moveInstr_mem_ne_nil (s : MacroState) : ∀ p ∈ moveInstr s, p ≠ [] := by
  intro p hp
  rw [moveInstr] at hp
  by_cases hm : s.mouse_delta = (0, 0)
  · rw [if_pos hm] at hp
    simp at hp
  · rw [if_neg hm] at hp
    simp only [List.mem_singleton] at hp
    subst hp
    exact List.append_ne_nil_of_left_ne_nil
      (List.append_ne_nil_of_left_ne_nil
        (List.append_ne_nil_of_left_ne_nil (by decide) _) _) _

theorem scrollVInstr_mem_ne_nil (s : MacroState) : ∀ p ∈ scrollVInstr s, p ≠ [] := by
  intro p hp
  rw [scrollVInstr] at hp
  split at hp
  · simp at hp
  · split at hp <;>
    · simp only [List.mem_singleton] at hp
      subst hp
      exact List.append_ne_nil_of_left_ne_nil (by decide) _

theorem scrollHInstr_mem_ne_nil (s : MacroState) : ∀ p ∈ scrollHInstr s, p ≠ [] := by
  intro p hp
  rw [scrollHInstr] at hp
  split at hp
  · simp at hp
  · split at hp <;>
    · simp only [List.mem_singleton] at hp
      subst hp
      exact List.append_ne_nil_of_left_ne_nil (by decide) _

theorem scroll_guard_eq (s : MacroState) :
    (if s.scroll_delta = (0, 0) then ([] : List (List Char))
      else scrollVInstr s ++ scrollHInstr s) = scrollVInstr s ++ scrollHInstr s := by
  by_cases hsc : s.scroll_delta = (0, 0)
  · rw [if_pos hsc, scrollVInstr, if_pos (by rw [hsc]), scrollHInstr,
      if_pos (by rw [hsc])]
    rfl
  · rw [if_neg hsc]

theorem instr_parts_ne_nil (s : MacroState)
    (h : ¬(s.keys_pressed = ∅ ∧ s.mouse_delta = (0, 0) ∧ s.scroll_delta = (0, 0))) :
    holdTapInstr s ++ moveInstr s ++
      (if s.scroll_delta = (0, 0) then [] else scrollVInstr s ++ scrollHInstr s) ≠ [] := by
  by_cases hk : s.keys_pressed = ∅
  · by_cases hm : s.mouse_delta = (0, 0)
    · have hsc : s.scroll_delta ≠ (0, 0) := fun hcon => h ⟨hk, hm, hcon⟩
      rw [scroll_guard_eq]
      have : scrollVInstr s ++ scrollHInstr s ≠ [] := by
        intro hcon
        rcases List.append_eq_nil.mp hcon with ⟨hv, hh⟩
        rw [scrollVInstr] at hv
        rw [scrollHInstr] at hh
        by_cases h1 : s.scroll_delta.1 = 0
        · by_cases h2 : s.scroll_delta.2 = 0
          · exact hsc (Prod.ext h1 h2)
          · rw [if_neg h2] at hh
            split at hh <;> simp at hh
        · rw [if_neg h1] at hv
          split at hv <;> simp at hv
      intro hcon
      rcases List.append_eq_nil.mp hcon with ⟨_, h2⟩
      exact this h2
    · have : moveInstr s ≠ [] := by
        rw [moveInstr, if_neg hm]
        simp
      intro hcon
      rcases List.append_eq_nil.mp hcon with ⟨h1, _⟩
      rcases List.append_eq_nil.mp h1 with ⟨_, h2⟩
      exact this h2
  · have : holdTapInstr s ≠ [] := by
      rw [holdTapInstr, if_neg hk]
      split <;> simp
    intro hcon
    rcases List.append_eq_nil.mp hcon with ⟨h1, _⟩
    rcases List.append_eq_nil.mp h1 with ⟨h2, _⟩
    exact this h2

theorem instr_parts_all_ne_nil (s : MacroState) :
    ∀ p ∈ holdTapInstr s ++ moveInstr s ++
      (if s.scroll_delta = (0, 0) then [] else scrollVInstr s ++ scrollHInstr s), p ≠ [] := by
  intro p hp
  rcases List.mem_append.mp hp with h1 | h1
  · rcases List.mem_append.mp h1 with h2 | h2
    · exact holdTapInstr_mem_ne_nil s p h2
    · exact moveInstr_mem_ne_nil s p h2
  · by_cases hsc : s.scroll_delta = (0, 0)
    · rw [if_pos hsc] at h1
      simp at h1
    · rw [if_neg hsc] at h1
      rcases List.mem_append.mp h1 with h2 | h2
      · exact scrollVInstr_mem_ne_nil s p h2
      · exact scrollHInstr_mem_ne_nil s p h2

/-- C2, counterexample: a state that taps `W` while also moving the mouse
serializes both instructions onto one single line, `tap W move 1 2`,
refuting "each applicable instruction as its own separate line". -/
theorem claim2_counterexample :
    format_state ⟨0, {17}, (1, 2), (0, 0)⟩ = "tap W move 1 2".toList ∧
    formatLines ⟨0, {17}, (1, 2), (0, 0)⟩ = ["tap W move 1 2".toList] := by
  constructor
  · decide
  · decide

/-- C2, amended: for every non-degenerate Macro State, serialization emits
the applicable hold/tap, mouse-move, vertical-scroll, and horizontal-scroll
instructions in that order, but joined by single spaces on *one* line; only
the trailing `wait` (emitted iff the duration is positive and the key set
empty) is placed on its own separate line. -/
theorem claim2_layout (s : MacroState)
    (h : ¬(s.keys_pressed = ∅ ∧ s.mouse_delta = (0, 0) ∧ s.scroll_delta = (0, 0))) :
    formatLines s =
      [joinSep " ".toList (holdTapInstr s ++ moveInstr s ++ scrollVInstr s ++ scrollHInstr s)]
        ++ (if 0 < s.duration_ms ∧ s.keys_pressed = ∅
            then [waitLine s.duration_ms] else []) := by
  have hpeq : holdTapInstr s ++ moveInstr s ++ scrollVInstr s ++ scrollHInstr s =
      holdTapInstr s ++ moveInstr s ++
        (if s.scroll_delta = (0, 0) then [] else scrollVInstr s ++ scrollHInstr s) := by
    rw [scroll_guard_eq, List.append_assoc (holdTapInstr s ++ moveInstr s)]
  rw [hpeq]
  have hres : joinSep " ".toList (holdTapInstr s ++ moveInstr s ++
      (if s.scroll_delta = (0, 0) then [] else scrollVInstr s ++ scrollHInstr s)) ≠ [] :=
    joinSep_ne_nil _ _ (instr_parts_ne_nil s h) (instr_parts_all_ne_nil s)
  rw [formatLines, format_state_of_ne s h, if_neg hres]
  by_cases hw : 0 < s.duration_ms ∧ s.keys_pressed = ∅
  · rw [if_pos hw, if_pos hw]
    show splitOnPred _ (_ ++ '\n' :: waitLine s.duration_ms) = _
    rw [splitOnPred_append _ _ '\n' _
      (fun x hx => by simp [instr_join_no_nl s x hx]) (by simp),
      splitOnPred_of_all _ _ (fun x hx => by simp [waitLine_no_nl s.duration_ms x hx])]
    rfl
  · rw [if_neg hw, if_neg hw, List.append_nil]
    exact splitNl_single _ (instr_join_no_nl s)

/-- C2, witness: a scroll state with a duration produces the scroll
instruction line followed by a separate `wait` line. -/
theorem claim2_witness :
    (¬((⟨500, ∅, (0, 0), (-1, 0)⟩ : MacroState).keys_pressed = ∅ ∧
        (⟨500, ∅, (0, 0), (-1, 0)⟩ : MacroState).mouse_delta = (0, 0) ∧
        (⟨500, ∅, (0, 0), (-1, 0)⟩ : MacroState).scroll_delta = (0, 0))) ∧
    formatLines ⟨500, ∅, (0, 0), (-1, 0)⟩ =
      [joinSep " ".toList (holdTapInstr ⟨500, ∅, (0, 0), (-1, 0)⟩ ++
        moveInstr ⟨500, ∅, (0, 0), (-1, 0)⟩ ++
        scrollVInstr ⟨500, ∅, (0, 0), (-1, 0)⟩ ++
        scrollHInstr ⟨500, ∅, (0, 0), (-1, 0)⟩)]
        ++ (if 0 < (500 : Nat) ∧ (∅ : Finset Nat) = ∅
            then [waitLine 500] else []) :=
  ⟨by decide, claim2_layout ⟨500, ∅, (0, 0), (-1, 0)⟩ (by decide)⟩

/-! ## Claim C4 (confirmed) -/

/-- C4: the duration parser maps `100ms` to 100 and `2s` to 2000
(`s`-suffixed values are scaled by 1000), a unit-less `100` is a parse
error, and in general every token ending in neither `ms` nor `s` is a hard
parse error. -/
theorem claim4_duration_parsing :
    parse_duration "100ms".toList = .ok 100 ∧
    parse_duration "2s".toList = .ok 2000 ∧
    parse_duration "100".toList =
      .error "Duration must end with 'ms' or 's': 100".toList ∧
    ∀ s : List Char, ¬("ms".toList <:+ s) → ¬("s".toList <:+ s) →
      parse_duration s =
        .error ("Duration must end with 'ms' or 's': ".toList ++ s) := by
  refine ⟨by decide, by decide, by decide, ?_⟩
  intro s h1 h2
  rw [parse_duration, stripSuf_of_not_suffix _ _ h1, stripSuf_of_not_suffix _ _ h2]

/-- C4, witness: the general no-unit-suffix clause at the concrete token
`100x`. -/
theorem claim4_witness :
    ¬("ms".toList <:+ "100x".toList) ∧ ¬("s".toList <:+ "100x".toList) ∧
    parse_duration "100x".toList =
      .error ("Duration must end with 'ms' or 's': ".toList ++ "100x".toList) :=
  ⟨by decide, by decide,
    claim4_duration_parsing.2.2.2 "100x".toList (by decide) (by decide)⟩

/-! ## Claim C5 (confirmed) -/

/-- C5: the four scroll directions parse to the documented
`(vertical, horizontal)` deltas, and serializing each of those four deltas
(with no other activity) reproduces the original line exactly. -/
theorem claim5_scroll_mapping :
    parse_line "scroll up 3".toList = .ok ⟨0, ∅, (0, 0), (3, 0)⟩ ∧
    parse_line "scroll down 5".toList = .ok ⟨0, ∅, (0, 0), (-5, 0)⟩ ∧
    parse_line "scroll left 2".toList = .ok ⟨0, ∅, (0, 0), (0, -2)⟩ ∧
    parse_line "scroll right 4".toList = .ok ⟨0, ∅, (0, 0), (0, 4)⟩ ∧
    format_state ⟨0, ∅, (0, 0), (3, 0)⟩ = "scroll up 3".toList ∧
    format_state ⟨0, ∅, (0, 0), (-5, 0)⟩ = "scroll down 5".toList ∧
    format_state ⟨0, ∅, (0, 0), (0, -2)⟩ = "scroll left 2".toList ∧
    format_state ⟨0, ∅, (0, 0), (0, 4)⟩ = "scroll right 4".toList := by
  refine ⟨?_, ?_, ?_, ?_, ?_, ?_, ?_, ?_⟩ <;> decide

/-! ## Claim C9 (corrected) -/

theorem parse_line_ok_shape (line : List Char) (st : MacroState)
    (h : parse_line line = .ok st) :
    (st.mouse_delta = (0, 0) ∧ st.scroll_delta = (0, 0)) ∨
    (st.duration_ms = 0 ∧ st.keys_pressed = ∅ ∧ st.scroll_delta = (0, 0)) ∨
    (st.duration_ms = 0 ∧ st.keys_pressed = ∅ ∧ st.mouse_delta = (0, 0)) := by
  rw [parse_line] at h
  repeat' split at h
  all_goals
    first
    | (simp only [Except.ok.injEq] at h
       subst h
       simp)
    | simp at h

/-- C9, counterexample: the line `move 0 0` parses successfully, but the
resulting state has *no* active track (empty keys, zero deltas, zero
duration), refuting "exactly one active track". -/
theorem claim9_counterexample :
    parse_line "move 0 0".toList = .ok ⟨0, ∅, (0, 0), (0, 0)⟩ ∧
    ((⟨0, ∅, (0, 0), (0, 0)⟩ : MacroState).keys_pressed = ∅ ∧
      (⟨0, ∅, (0, 0), (0, 0)⟩ : MacroState).mouse_delta = (0, 0) ∧
      (⟨0, ∅, (0, 0), (0, 0)⟩ : MacroState).scroll_delta = (0, 0) ∧
      (⟨0, ∅, (0, 0), (0, 0)⟩ : MacroState).duration_ms = 0) := by
  constructor
  · decide
  · decide

/-- C9, amended: every state the line parser produces has *at most* one
active track: nonempty keys force zero deltas; a nonzero mouse or scroll
delta forces zero duration and empty keys; and the two delta tracks are
never both nonzero. -/
theorem claim9_at_most_one_track (line : List Char) (st : MacroState)
    (h : parse_line line = .ok st) :
    (st.keys_pressed ≠ ∅ → st.mouse_delta = (0, 0) ∧ st.scroll_delta = (0, 0)) ∧
    ((st.mouse_delta ≠ (0, 0) ∨ st.scroll_delta ≠ (0, 0)) →
      st.duration_ms = 0 ∧ st.keys_pressed = ∅) ∧
    ¬(st.mouse_delta ≠ (0, 0) ∧ st.scroll_delta ≠ (0, 0)) := by
  rcases parse_line_ok_shape line st h with ⟨h1, h2⟩ | ⟨h1, h2, h3⟩ | ⟨h1, h2, h3⟩ <;>
    refine ⟨?_, ?_, ?_⟩ <;> tauto

/-- C9, witness: the amended claim at the concrete line `move 1 2`. -/
theorem claim9_witness :
    parse_line "move 1 2".toList = .ok ⟨0, ∅, (1, 2), (0, 0)⟩ ∧
    (((⟨0, ∅, (1, 2), (0, 0)⟩ : MacroState).keys_pressed ≠ ∅ →
        (⟨0, ∅, (1, 2), (0, 0)⟩ : MacroState).mouse_delta = (0, 0) ∧
        (⟨0, ∅, (1, 2), (0, 0)⟩ : MacroState).scroll_delta = (0, 0)) ∧
      (((⟨0, ∅, (1, 2), (0, 0)⟩ : MacroState).mouse_delta ≠ (0, 0) ∨
          (⟨0, ∅, (1, 2), (0, 0)⟩ : MacroState).scroll_delta ≠ (0, 0)) →
        (⟨0, ∅, (1, 2), (0, 0)⟩ : MacroState).duration_ms = 0 ∧
        (⟨0, ∅, (1, 2), (0, 0)⟩ : MacroState).keys_pressed = ∅) ∧
      ¬((⟨0, ∅, (1, 2), (0, 0)⟩ : MacroState).mouse_delta ≠ (0, 0) ∧
        (⟨0, ∅, (1, 2), (0, 0)⟩ : MacroState).scroll_delta ≠ (0, 0))) :=
  ⟨by decide, claim9_at_most_one_track "move 1 2".toList _ (by decide)⟩

/-! ## Claim C6 (confirmed) -/

theorem loadLines_error_at (pre : List (List Char)) :
    ∀ (n : Nat) (bad : List Char) (rest : List (List Char)) (m : List Char),
      (∀ l ∈ pre, trimChars l = [] ∨ (trimChars l).head? = some '#' ∨
        ∃ st, parse_line (trimChars l) = .ok st) →
      trimChars bad ≠ [] → (trimChars bad).head? ≠ some '#' →
      parse_line (trimChars bad) = .error m →
      loadLines (pre ++ bad :: rest) n = .error (lineMsg (n + pre.length + 1) m) := by
  induction pre with
  | nil =>
    intro n bad rest m _ hne hhash herr
    rw [List.nil_append, loadLines]
    simp only [if_neg hne, if_neg hhash, herr]
    rfl
  | cons l pre' ih =>
    intro n bad rest m hpre hne hhash herr
    rw [List.cons_append, loadLines]
    have ihk := ih (n + 1) bad rest m
      (fun x hx => hpre x (List.mem_cons_of_mem l hx)) hne hhash herr
    have harith : n + 1 + pre'.length + 1 = n + (l :: pre').length + 1 := by
      simp only [List.length_cons]
      omega
    rcases hpre l (List.mem_cons_self l pre') with hskip | hskip | ⟨st, hok⟩
    · rw [if_pos hskip, ihk, harith]
    · by_cases hnil : trimChars l = []
      · rw [if_pos hnil, ihk, harith]
      · rw [if_neg hnil, if_pos hskip, ihk, harith]
    · obtain ⟨hne', hhash'⟩ := parse_line_ok_not_skipped l st
        ((parse_line_trim l).symm.trans hok)
      rw [if_neg hne', if_neg hhash']
      simp only [hok, ihk, harith]
      rfl

theorem parse_keys_go_error (pre : List (List Char)) :
    ∀ (acc : Finset Nat) (t : List Char) (post : List (List Char)),
      (∀ u ∈ pre, (name_to_keycode (trimChars u)).isSome = true) →
      name_to_keycode (trimChars t) = none →
      parse_keys_go (pre ++ t :: post) acc =
        .error ("Unknown key: ".toList ++ trimChars t) := by
  induction pre with
  | nil =>
    intro acc t post _ hbad
    rw [List.nil_append, parse_keys_go, hbad]
  | cons u pre' ih =>
    intro acc t post hpre hbad
    obtain ⟨c, hc⟩ := Option.isSome_iff_exists.mp (hpre u (List.mem_cons_self u pre'))
    rw [List.cons_append, parse_keys_go, hc]
    exact ih (insert c acc) t post
      (fun x hx => hpre x (List.mem_cons_of_mem u hx)) hbad

/-- C6: (a) if the lines before some line are all blank, comments, or
well-formed, and that line is neither blank nor a comment and fails to
parse, then `load` of the whole file fails (no partial result) with a
message carrying the 1-based line number and the parser's description of
the offending text; (b) an unknown key name in a `hold`/`tap` key list is a
hard parse error naming the offending (trimmed) token. -/
theorem claim6_load_error_reporting :
    (∀ (pre : List (List Char)) (bad : List Char) (rest : List (List Char))
        (m : List Char),
      (∀ l ∈ pre, trimChars l = [] ∨ (trimChars l).head? = some '#' ∨
        ∃ st, parse_line (trimChars l) = .ok st) →
      trimChars bad ≠ [] → (trimChars bad).head? ≠ some '#' →
      parse_line (trimChars bad) = .error m →
      loadLines (pre ++ bad :: rest) 0 =
        .error ("Line ".toList ++ natDigits (pre.length + 1) ++ ": ".toList ++ m)) ∧
    (∀ (s : List Char) (pre : List (List Char)) (t : List Char)
        (post : List (List Char)),
      splitOnChar '+' s = pre ++ t :: post →
      (∀ u ∈ pre, (name_to_keycode (trimChars u)).isSome = true) →
      name_to_keycode (trimChars t) = none →
      parse_keys s = .error ("Unknown key: ".toList ++ trimChars t)) := by
  constructor
  · intro pre bad rest m hpre hne hhash herr
    have := loadLines_error_at pre 0 bad rest m hpre hne hhash herr
    rwa [lineMsg, Nat.zero_add] at this
  · intro s pre t post hsplit hpre hbad
    rw [parse_keys, hsplit]
    exact parse_keys_go_error pre ∅ t post hpre hbad

/-- C6, witness: a file whose second data line holds an unknown key aborts
loading with `Line 2: Unknown key: QQ`, and the key-list error names the
offending token. -/
theorem claim6_witness :
    loadLines ["tap W".toList, "hold QQ for 5ms".toList, "wait 1ms".toList] 0 =
      .error ("Line ".toList ++ natDigits 2 ++ ": ".toList ++
        "Unknown key: QQ".toList) ∧
    parse_keys "W+QQ".toList = .error ("Unknown key: ".toList ++ "QQ".toList) := by
  constructor
  · exact claim6_load_error_reporting.1 ["tap W".toList] "hold QQ for 5ms".toList
      ["wait 1ms".toList] "Unknown key: QQ".toList
      (by intro l hl
          simp only [List.mem_singleton] at hl
          subst hl
          exact Or.inr (Or.inr ⟨⟨0, {17}, (0, 0), (0, 0)⟩, by decide⟩))
      (by decide) (by decide) (by decide)
  · exact claim6_load_error_reporting.2 "W+QQ".toList ["W".toList] "QQ".toList []
      (by decide) (by decide) (by decide)

/-! ## Claim C3 (corrected) -/

theorem processEvent_inv (clock : Nat → Nat) (acc : Recorder × Bool) (ev : InputEvent)
    (h : ∀ e ∈ acc.1.events, isTogglePress e.event = false) :
    ∀ e ∈ (processEvent clock acc ev).1.events, isTogglePress e.event = false := by
  intro e he
  rw [processEvent] at he
  by_cases ht : isTogglePress ev
  · rw [if_pos ht] at he
    by_cases hr : acc.1.recording = false
    · rw [if_pos hr] at he
      simp at he
    · rw [if_neg hr] at he
      exact h e he
  · rw [if_neg ht] at he
    by_cases hr : acc.1.recording
    · rw [if_pos hr] at he
      simp only [List.mem_append, List.mem_singleton] at he
      rcases he with he | he
      · exact h e he
      · subst he
        simpa using ht
    · rw [if_neg hr] at he
      exact h e he

theorem foldl_process_inv (clock : Nat → Nat) (evs : List InputEvent) :
    ∀ acc : Recorder × Bool, (∀ e ∈ acc.1.events, isTogglePress e.event = false) →
    ∀ e ∈ (evs.foldl (processEvent clock) acc).1.events, isTogglePress e.event = false := by
  induction evs with
  | nil => intro acc h; exact h
  | cons ev evs' ih =>
    intro acc h
    rw [List.foldl_cons]
    exact ih (processEvent clock acc ev) (processEvent_inv clock acc ev h)

theorem pollFetch_inv (clock : Nat → Nat) (acc : Recorder × Bool) (f : FetchResult)
    (h : ∀ e ∈ acc.1.events, isTogglePress e.event = false) :
    ∀ e ∈ (pollFetch clock acc f).1.events, isTogglePress e.event = false := by
  cases f with
  | ok evs => exact foldl_process_inv clock evs acc h
  | wouldBlock => exact h
  | err m => exact h

theorem pollRun_inv (clock : Nat → Nat) (fs : List FetchResult) :
    ∀ acc : Recorder × Bool, (∀ e ∈ acc.1.events, isTogglePress e.event = false) →
    ∀ e ∈ (fs.foldl (pollFetch clock) acc).1.events, isTogglePress e.event = false := by
  induction fs with
  | nil => intro acc h; exact h
  | cons f fs' ih =>
    intro acc h
    rw [List.foldl_cons]
    exact ih (pollFetch clock acc f) (pollFetch_inv clock acc f h)

/-- C3, counterexample: starting idle, one `poll()` that sees an F1 press
followed by an F1 *release* starts recording and then appends the release
to the log — a toggle-key release event is recorded, refuting "no press or
release event of the toggle key is ever appended". -/
theorem claim3_counterexample :
    (pollSeq (fun _ => 0) Recorder.new
      [[FetchResult.ok [InputEvent.key KEY_F1 1, InputEvent.key KEY_F1 0]]]).events =
    [⟨0, InputEvent.key KEY_F1 0⟩] := by decide

/-- C3, amended: across any sequence of `poll()` calls from a fresh
recorder, no toggle-key *press* (`KEY_F1` with value 1) is ever appended to
the recorded log; only presses are consumed by the toggle logic, while
toggle-key release/repeat events are recorded like any other event when
recording is active. -/
theorem claim3_no_toggle_press_recorded (clock : Nat → Nat)
    (fss : List (List FetchResult)) :
    ∀ e ∈ (pollSeq clock Recorder.new fss).events, isTogglePress e.event = false := by
  have hgen : ∀ (fss : List (List FetchResult)) (st : Recorder),
      (∀ e ∈ st.events, isTogglePress e.event = false) →
      ∀ e ∈ (pollSeq clock st fss).events, isTogglePress e.event = false := by
    intro fss
    induction fss with
    | nil => intro st h; exact h
    | cons fs rest ih =>
      intro st h
      rw [pollSeq]
      exact ih (pollRun clock st fs).1 (pollRun_inv clock fs (st, false) h)
  exact hgen fss Recorder.new (by intro e he; simp [Recorder.new] at he)

/-- C3, witness: the amended claim at a concrete recorded event (a `W`
press recorded right after the toggle press started the session). -/
theorem claim3_witness :
    (⟨0, InputEvent.key 30 1⟩ : RecordedEvent) ∈
      (pollSeq (fun _ => 0) Recorder.new
        [[FetchResult.ok [InputEvent.key KEY_F1 1, InputEvent.key 30 1]]]).events ∧
    isTogglePress (InputEvent.key 30 1) = false :=
  ⟨by decide, claim3_no_toggle_press_recorded (fun _ => 0)
    [[FetchResult.ok [InputEvent.key KEY_F1 1, InputEvent.key 30 1]]]
    ⟨0, InputEvent.key 30 1⟩ (by decide)⟩

/-! ## Claim C8 (confirmed) -/

theorem processEvent_logs (clock : Nat → Nat) (acc : Recorder × Bool)
    (ev : InputEvent) : (processEvent clock acc ev).1.logs = acc.1.logs := by
  rw [processEvent]
  by_cases ht : isTogglePress ev
  · rw [if_pos ht]
    by_cases hr : acc.1.recording = false
    · rw [if_pos hr]
    · rw [if_neg hr]
  · rw [if_neg ht]
    by_cases hr : acc.1.recording
    · rw [if_pos hr]
    · rw [if_neg hr]

theorem foldl_process_logs (clock : Nat → Nat) (evs : List InputEvent) :
    ∀ acc : Recorder × Bool,
      (evs.foldl (processEvent clock) acc).1.logs = acc.1.logs := by
  induction evs with
  | nil => intro acc; rfl
  | cons ev evs' ih =>
    intro acc
    rw [List.foldl_cons, ih (processEvent clock acc ev), processEvent_logs]

theorem pollRun_logs_aux (clock : Nat → Nat) (fs : List FetchResult) :
    ∀ acc : Recorder × Bool, (fs.foldl (pollFetch clock) acc).1.logs =
      acc.1.logs ++ fs.filterMap
        (fun f => match f with | .err m => some m | _ => none) := by
  induction fs with
  | nil => intro acc; simp
  | cons f fs' ih =>
    intro acc
    rw [List.foldl_cons, ih (pollFetch clock acc f)]
    cases f with
    | ok evs =>
      rw [show pollFetch clock acc (.ok evs) = evs.foldl (processEvent clock) acc
        from rfl, foldl_process_logs]
      simp [List.filterMap_cons]
    | wouldBlock =>
      simp [pollFetch, List.filterMap_cons]
    | err m =>
      rw [show pollFetch clock acc (.err m) =
        ({acc.1 with logs := acc.1.logs ++ [m]}, acc.2) from rfl]
      simp [List.filterMap_cons]

/-- C8: `poll()` is typed to return an I/O result but never returns the
error variant — it always returns `Ok` with the state-changed flag; other
per-device read failures are only appended to the log of reported errors,
and a would-block fetch is skipped with no effect at all. -/
theorem claim8_poll_never_errors :
    (∀ (clock : Nat → Nat) (st : Recorder) (fs : List FetchResult),
      (poll clock st fs).isOk = true) ∧
    (∀ (clock : Nat → Nat) (st : Recorder) (fs : List FetchResult),
      (pollRun clock st fs).1.logs = st.logs ++ fs.filterMap
        (fun f => match f with | .err m => some m | _ => none)) ∧
    (∀ (clock : Nat → Nat) (st : Recorder) (fs1 fs2 : List FetchResult),
      pollRun clock st (fs1 ++ .wouldBlock :: fs2) = pollRun clock st (fs1 ++ fs2)) := by
  refine ⟨fun clock st fs => rfl, fun clock st fs => pollRun_logs_aux clock fs (st, false),
    fun clock st fs1 fs2 => ?_⟩
  rw [pollRun, pollRun, List.foldl_append, List.foldl_append, List.foldl_cons]
  rfl

/-! ## Claims C7 and C10 (confirmed) -/

theorem specTrace_nil (last : Nat) : specTrace last [] = [] := rfl

theorem specTrace_cons (last : Nat) (e : RecordedEvent) (rest : List RecordedEvent) :
    specTrace last (e :: rest) =
      ((if 0 < e.timestamp_us - last then [PlayAct.sleep (e.timestamp_us - last)]
        else []) ++ [PlayAct.emit e.event]) ++ specTrace e.timestamp_us rest := by
  simp only [specTrace, List.map_cons, List.zip_cons_cons, List.flatMap_cons]

theorem playGo_all_ok (emitRes : Nat → Except (List Char) Unit) :
    ∀ (evts : List RecordedEvent) (i last : Nat),
      (∀ k, k < evts.length → (emitRes (i + k)).isOk = true) →
      playGo emitRes evts i last = (.ok (), specTrace last evts) := by
  intro evts
  induction evts with
  | nil => intro i last _; rfl
  | cons e rest ih =>
    intro i last h
    have h0 : (emitRes i).isOk = true := by
      have := h 0 (by simp)
      rwa [Nat.add_zero] at this
    rcases hres : emitRes i with m | u
    · rw [hres] at h0
      simp [Except.isOk, Except.toBool] at h0
    · have hrest : ∀ k, k < rest.length → (emitRes (i + 1 + k)).isOk = true := by
        intro k hk
        have := h (k + 1) (by simp; omega)
        rwa [show i + (k + 1) = i + 1 + k by omega] at this
      simp only [playGo, hres, ih (i + 1) e.timestamp_us hrest, specTrace_cons]
      simp [List.append_assoc]

theorem playGo_err (emitRes : Nat → Except (List Char) Unit) :
    ∀ (evts : List RecordedEvent) (i last j : Nat) (m : List Char),
      j < evts.length → (∀ k, k < j → (emitRes (i + k)).isOk = true) →
      emitRes (i + j) = .error m →
      playGo emitRes evts i last = (.error m, specTrace last (evts.take (j + 1))) := by
  intro evts
  induction evts with
  | nil =>
    intro i last j m hj _ _
    simp at hj
  | cons e rest ih =>
    intro i last j m hj hok herr
    cases j with
    | zero =>
      rw [Nat.add_zero] at herr
      simp only [playGo, herr, List.take_succ_cons, List.take_zero, specTrace_cons,
        specTrace_nil, List.append_nil]
    | succ j' =>
      have h0 : (emitRes i).isOk = true := by
        have := hok 0 (by omega)
        rwa [Nat.add_zero] at this
      rcases hres : emitRes i with m' | u
      · rw [hres] at h0
        simp [Except.isOk, Except.toBool] at h0
      · have hok' : ∀ k, k < j' → (emitRes (i + 1 + k)).isOk = true := by
          intro k hk
          have := hok (k + 1) (by omega)
          rwa [show i + (k + 1) = i + 1 + k by omega] at this
        have herr' : emitRes (i + 1 + j') = .error m := by
          rwa [show i + 1 + j' = i + (j' + 1) by omega]
        have hj' : j' < rest.length := by
          simp only [List.length_cons] at hj
          omega
        simp only [playGo, hres, ih (i + 1) e.timestamp_us j' m hj' hok' herr',
          List.take_succ_cons, specTrace_cons]
        simp [List.append_assoc]

/-- C7: for every non-empty raw event log whose emissions all succeed,
`play` produces exactly the schedule the spec describes — each event
emitted in order, preceded by a sleep for the difference between its
timestamp and its predecessor's (the first measured against 0), the sleep
skipped when that difference is zero; and if the `j`-th emission fails,
playback performs exactly the scheduled actions up to and including that
failed emit attempt, then aborts surfacing that error (no retry, nothing
further emitted). -/
theorem claim7_play_schedule :
    (∀ (emitRes : Nat → Except (List Char) Unit) (evts : List RecordedEvent),
      evts ≠ [] → (∀ k, k < evts.length → (emitRes k).isOk = true) →
      play emitRes evts = (.ok (), specTrace 0 evts)) ∧
    (∀ (emitRes : Nat → Except (List Char) Unit) (evts : List RecordedEvent)
        (j : Nat) (m : List Char),
      j < evts.length → (∀ k, k < j → (emitRes k).isOk = true) →
      emitRes j = .error m →
      play emitRes evts = (.error m, specTrace 0 (evts.take (j + 1)))) := by
  constructor
  · intro emitRes evts hne hok
    rw [play, if_neg (by simpa using hne)]
    exact playGo_all_ok emitRes evts 0 0
      (fun k hk => by rw [Nat.zero_add]; exact hok k hk)
  · intro emitRes evts j m hj hok herr
    have hne : evts ≠ [] := by
      intro hnil
      rw [hnil] at hj
      simp at hj
    rw [play, if_neg (by simpa using hne)]
    exact playGo_err emitRes evts 0 0 j m hj
      (fun k hk => by rw [Nat.zero_add]; exact hok k hk)
      (by rw [Nat.zero_add]; exact herr)

/-- C7, witness: both clauses at a concrete three-event log — an all-ok
pass reproduces the full spec schedule, and a device failure at the second
emit aborts after exactly the first two scheduled events. -/
theorem claim7_witness :
    (([⟨5, InputEvent.other⟩, ⟨5, InputEvent.key 30 1⟩, ⟨9, InputEvent.other⟩] :
        List RecordedEvent) ≠ [] ∧
      play (fun _ => .ok ()) [⟨5, InputEvent.other⟩, ⟨5, InputEvent.key 30 1⟩,
        ⟨9, InputEvent.other⟩] =
        (.ok (), specTrace 0 [⟨5, InputEvent.other⟩, ⟨5, InputEvent.key 30 1⟩,
          ⟨9, InputEvent.other⟩])) ∧
    ((1 : Nat) < 3 ∧
      play (fun i => if i = 1 then .error "emit failed".toList else .ok ())
        [⟨5, InputEvent.other⟩, ⟨5, InputEvent.key 30 1⟩, ⟨9, InputEvent.other⟩] =
        (.error "emit failed".toList, specTrace 0
          ([⟨5, InputEvent.other⟩, ⟨5, InputEvent.key 30 1⟩,
            ⟨9, InputEvent.other⟩].take 2))) := by
  constructor
  · exact ⟨by decide, claim7_play_schedule.1 (fun _ => .ok ()) _ (by decide)
      (fun k _ => rfl)⟩
  · refine ⟨by decide, ?_⟩
    exact claim7_play_schedule.2 (fun i => if i = 1 then .error "emit failed".toList
      else .ok ()) _ 1 "emit failed".toList (by decide) (fun k hk => by
        interval_cases k
        rfl) rfl

/-- C10: `play` on an empty log returns success without emitting or
sleeping at all; on a log whose first event has a positive timestamp the
very first action is a sleep for that timestamp (the delta is computed
against an initial last-timestamp of zero). -/
theorem claim10_initial_sleep_empty_ok :
    (∀ emitRes : Nat → Except (List Char) Unit, play emitRes [] = (.ok (), [])) ∧
    (∀ (emitRes : Nat → Except (List Char) Unit) (e : RecordedEvent)
        (rest : List RecordedEvent), 0 < e.timestamp_us →
      ((play emitRes (e :: rest)).2).head? = some (.sleep e.timestamp_us)) := by
  constructor
  · intro emitRes
    rfl
  · intro emitRes e rest h
    rw [play, if_neg (by simp)]
    have hd : e.timestamp_us - 0 = e.timestamp_us := Nat.sub_zero _
    rcases hres : emitRes 0 with m | u <;>
      simp only [playGo, hres, hd, if_pos h] <;> rfl

/-- C10, witness: the initial sleep equals the first event's timestamp on a
concrete log, and the empty log plays to immediate success. -/
theorem claim10_witness :
    play (fun _ => .ok ()) ([] : List RecordedEvent) = (.ok (), []) ∧
    ((0 : Nat) < 7 ∧
      ((play (fun _ => .ok ()) [⟨7, InputEvent.other⟩, ⟨9, InputEvent.other⟩]).2).head? =
        some (.sleep 7)) :=
  ⟨claim10_initial_sleep_empty_ok.1 (fun _ => .ok ()),
   by decide,
   claim10_initial_sleep_empty_ok.2 (fun _ => .ok ()) ⟨7, InputEvent.other⟩
     [⟨9, InputEvent.other⟩] (by decide)⟩

end Macromate
